/-
Verification of the connection/player-registry layer of classic-server
(`classicserver/server.py`).

The embedding models the `ClassicServer` mutable state as an explicit
`ServerState` record.  Python dicts (`_connections`, `_players`,
`_players_by_address`) become association lists whose insert keeps the
original position of an updated key and appends a fresh key at the end,
matching Python 3 dict iteration order, which the broadcast loop relies on.

A `Connection` object (class `Connection`, not part of the sources under
verification) is identified by the address it was accepted with; its
observable behaviour is modelled from the spec where noted.  Machine-level
side effects (socket writes) are recorded in an append-only `sent` log;
a fixed set `broken` of addresses models connections whose transport is
broken, for which `Connection.send` raises `IOError`.
-/
import Mathlib

namespace ClassicServer

/-- Transport addresses; a `Connection` object is identified by the address
it was accepted with. -/
abbrev Addr := Nat

/-- The `Player` objects created by `ClassicServer.add_player`
(`Player(player_id, connection, coordinates, name, user_type)`); the
`connection` back-reference is stored as the connection's address. -/
structure Player where
  player_id : Nat
  addr : Addr
  coords : List Int
  name : String
  user_type : Nat
  deriving Repr, DecidableEq

/-- The packet kinds `server.py` constructs (`MessagePacket`, `PingPacket`,
`DespawnPlayerPacket`, `DisconnectPlayerPacket`), as payloads. -/
inductive Packet where
  | message (player_id : Nat) (text : String)
  | ping
  | despawn (player_id : Nat)
  | disconnectPlayer (reason : String)
  deriving Repr, DecidableEq

/-- Python exceptions that the modelled code can raise: `KeyError` from
`del d[k]` / `d[k]` on a missing key, `IOError` from `Connection.send` on a
broken transport, `ValueError` from `raise ValueError("No more ID's left")`.
`outOfFuel` is an artefact of the fuel-bounded recursion; it is proved
unreachable for the fuel the top-level operations use. -/
inductive Err where
  | keyError
  | ioError
  | valueError
  | outOfFuel
  deriving Repr, DecidableEq

section AList

variable {α : Type} {β : Type} [DecidableEq α]

/-- `d[k]` lookup in a Python dict modelled as an association list. -/
def alLookup (k : α) : List (α × β) → Option β
  | [] => none
  | e :: t => if e.1 = k then some e.2 else alLookup k t

/-- `k in d`. -/
def alContains (k : α) (l : List (α × β)) : Bool :=
  (alLookup k l).isSome

/-- `d[k] = v`: update in place if the key exists, append otherwise
(Python 3 dict order). -/
def alInsert (k : α) (v : β) : List (α × β) → List (α × β)
  | [] => [(k, v)]
  | e :: t => if e.1 = k then (k, v) :: t else e :: alInsert k v t

/-- `del d[k]` (the caller checks presence; on association lists with
unique keys this removes the entry). -/
def alErase (k : α) : List (α × β) → List (α × β)
  | [] => []
  | e :: t => if e.1 = k then alErase k t else e :: alErase k t

/-- `d.values()` in insertion order. -/
def alValues (l : List (α × β)) : List β :=
  l.map Prod.snd

/-- The keys of a Python dict are unique. -/
def NodupKeys (l : List (α × β)) : Prop :=
  (l.map Prod.fst).Nodup

instance (l : List (α × β)) : Decidable (NodupKeys l) := by
  unfold NodupKeys; infer_instance

@[simp] theorem alLookup_nil (k : α) : alLookup k ([] : List (α × β)) = none := rfl

theorem alLookup_cons (k : α) (e : α × β) (t : List (α × β)) :
    alLookup k (e :: t) = if e.1 = k then some e.2 else alLookup k t := rfl

theorem alLookup_mem {k : α} {v : β} {l : List (α × β)} (h : alLookup k l = some v) :
    (k, v) ∈ l := by
  induction l with
  | nil => simp at h
  | cons e t ih =>
    obtain ⟨e1, e2⟩ := e
    rw [alLookup_cons] at h
    by_cases he : e1 = k
    · simp [he] at h
      rw [List.mem_cons]
      left
      rw [he, h]
    · simp [he] at h
      exact List.mem_cons_of_mem _ (ih h)

theorem alLookup_eq_none_iff {k : α} {l : List (α × β)} :
    alLookup k l = none ↔ k ∉ l.map Prod.fst := by
  induction l with
  | nil => simp
  | cons e t ih =>
    rw [alLookup_cons]
    by_cases he : e.1 = k
    · simp [he]
    · rw [if_neg he, ih]
      simp only [List.map_cons, List.mem_cons]
      push_neg
      constructor
      · intro h2
        exact ⟨fun hh => he hh.symm, h2⟩
      · intro h2
        exact h2.2

theorem alLookup_isSome_iff {k : α} {l : List (α × β)} :
    (alLookup k l).isSome = true ↔ ∃ v, alLookup k l = some v := by
  cases h : alLookup k l <;> simp [h]

theorem alContains_iff {k : α} {l : List (α × β)} :
    alContains k l = true ↔ ∃ v, alLookup k l = some v := by
  unfold alContains; exact alLookup_isSome_iff

theorem alContains_key_iff {k : α} {l : List (α × β)} :
    alContains k l = true ↔ k ∈ l.map Prod.fst := by
  constructor
  · intro hc
    rcases alContains_iff.mp hc with ⟨v, hv⟩
    exact List.mem_map.mpr ⟨(k, v), alLookup_mem hv, rfl⟩
  · intro hm
    by_contra hc
    have hn : alLookup k l = none := by
      cases hh : alLookup k l with
      | none => rfl
      | some v => exact absurd (alContains_iff.mpr ⟨v, hh⟩) hc
    exact alLookup_eq_none_iff.mp hn hm

theorem alLookup_eq_some_of_mem {k : α} {v : β} {l : List (α × β)}
    (hnd : NodupKeys l) (h : (k, v) ∈ l) : alLookup k l = some v := by
  induction l with
  | nil => simp at h
  | cons e t ih =>
    unfold NodupKeys at hnd
    rw [List.map_cons, List.nodup_cons] at hnd
    rcases List.mem_cons.mp h with h | h
    · rw [← h, alLookup_cons]; simp
    · rw [alLookup_cons]
      have hk : ¬ e.1 = k := by
        intro he
        apply hnd.1
        rw [he]
        exact List.mem_map.mpr ⟨(k, v), h, rfl⟩
      rw [if_neg hk]
      exact ih hnd.2 h

@[simp] theorem alLookup_alInsert_self (k : α) (v : β) (l : List (α × β)) :
    alLookup k (alInsert k v l) = some v := by
  induction l with
  | nil => simp [alInsert, alLookup_cons]
  | cons e t ih =>
    unfold alInsert
    by_cases he : e.1 = k
    · simp [he, alLookup_cons]
    · simp [he, alLookup_cons, ih]

theorem alLookup_alInsert_ne (k k' : α) (v : β) (l : List (α × β)) (h : k' ≠ k) :
    alLookup k' (alInsert k v l) = alLookup k' l := by
  have hkk : ¬ k = k' := fun hh => h hh.symm
  induction l with
  | nil =>
    unfold alInsert
    rw [alLookup_cons]
    simp [hkk]
  | cons e t ih =>
    unfold alInsert
    by_cases he : e.1 = k
    · rw [if_pos he, alLookup_cons, alLookup_cons, he]
      simp [hkk]
    · rw [if_neg he, alLookup_cons, alLookup_cons, ih]

@[simp] theorem alLookup_alErase_self (k : α) (l : List (α × β)) :
    alLookup k (alErase k l) = none := by
  induction l with
  | nil => rfl
  | cons e t ih =>
    unfold alErase
    by_cases he : e.1 = k
    · rw [if_pos he]; exact ih
    · rw [if_neg he, alLookup_cons, if_neg he]; exact ih

theorem alLookup_alErase_ne (k k' : α) (l : List (α × β)) (h : k' ≠ k) :
    alLookup k' (alErase k l) = alLookup k' l := by
  induction l with
  | nil => rfl
  | cons e t ih =>
    unfold alErase
    by_cases he : e.1 = k
    · have hne : ¬ e.1 = k' := by rw [he]; exact fun hh => h hh.symm
      rw [if_pos he, ih, alLookup_cons, if_neg hne]
    · rw [if_neg he, alLookup_cons, alLookup_cons, ih]

theorem alLookup_alErase {k k' : α} {l : List (α × β)} {v : β}
    (h : alLookup k' (alErase k l) = some v) : alLookup k' l = some v := by
  by_cases hk : k' = k
  · rw [hk] at h; simp at h
  · rw [alLookup_alErase_ne k k' l hk] at h; exact h

theorem keys_alInsert_not_mem (k : α) (v : β) (l : List (α × β))
    (h : k ∉ l.map Prod.fst) :
    (alInsert k v l).map Prod.fst = l.map Prod.fst ++ [k] := by
  induction l with
  | nil => simp [alInsert]
  | cons e t ih =>
    rw [List.map_cons, List.mem_cons] at h
    push_neg at h
    unfold alInsert
    rw [if_neg (fun hh => h.1 hh.symm)]
    rw [List.map_cons, List.map_cons, ih h.2, List.cons_append]

theorem keys_alInsert_mem (k : α) (v : β) (l : List (α × β))
    (h : k ∈ l.map Prod.fst) :
    (alInsert k v l).map Prod.fst = l.map Prod.fst := by
  induction l with
  | nil => simp at h
  | cons e t ih =>
    unfold alInsert
    by_cases he : e.1 = k
    · rw [if_pos he, List.map_cons, List.map_cons, he]
    · rw [List.map_cons, List.mem_cons] at h
      rcases h with h | h
      · exact absurd h.symm he
      · rw [if_neg he, List.map_cons, List.map_cons, ih h]

theorem NodupKeys_alInsert (k : α) (v : β) (l : List (α × β)) (h : NodupKeys l) :
    NodupKeys (alInsert k v l) := by
  unfold NodupKeys at *
  by_cases hm : k ∈ l.map Prod.fst
  · rw [keys_alInsert_mem k v l hm]; exact h
  · rw [keys_alInsert_not_mem k v l hm]
    rw [List.nodup_append]
    refine ⟨h, List.nodup_singleton k, ?_⟩
    intro a ha hb
    rw [List.mem_singleton] at hb
    rw [hb] at ha
    exact hm ha

theorem keys_alErase (k : α) (l : List (α × β)) :
    (alErase k l).map Prod.fst = (l.map Prod.fst).filter (fun x => x ≠ k) := by
  induction l with
  | nil => simp [alErase]
  | cons e t ih =>
    unfold alErase
    by_cases he : e.1 = k
    · simp [he, ih, List.filter_cons]
    · simp [List.filter_cons, he, ih]

theorem NodupKeys_alErase (k : α) (l : List (α × β)) (h : NodupKeys l) :
    NodupKeys (alErase k l) := by
  unfold NodupKeys at *
  rw [keys_alErase]
  exact h.filter _

theorem length_alErase_le {k : α} {l : List (α × β)} :
    (alErase k l).length ≤ l.length := by
  induction l with
  | nil => simp [alErase]
  | cons e t ih =>
    unfold alErase
    by_cases he : e.1 = k
    · simp [he]; omega
    · simp [he]; omega

theorem length_alErase_lt {k : α} {l : List (α × β)} {v : β}
    (h : alLookup k l = some v) : (alErase k l).length < l.length := by
  induction l with
  | nil => simp at h
  | cons e t ih =>
    rw [alLookup_cons] at h
    unfold alErase
    by_cases he : e.1 = k
    · simp [he]
      calc (alErase k t).length ≤ t.length := length_alErase_le
        _ < t.length + 1 := Nat.lt_succ_self _
    · simp [he] at h
      simp [he]
      exact ih h

omit [DecidableEq α] in
theorem mem_alValues_iff {v : β} {l : List (α × β)} :
    v ∈ alValues l ↔ ∃ k, (k, v) ∈ l := by
  unfold alValues
  constructor
  · intro h
    rcases List.mem_map.mp h with ⟨e, he, hv⟩
    exact ⟨e.1, by cases e; simp_all⟩
  · rintro ⟨k, hk⟩
    exact List.mem_map.mpr ⟨(k, v), hk, rfl⟩

theorem alValues_lookup {v : β} {l : List (α × β)} (hnd : NodupKeys l)
    (h : v ∈ alValues l) : ∃ k, alLookup k l = some v := by
  rcases mem_alValues_iff.mp h with ⟨k, hk⟩
  exact ⟨k, alLookup_eq_some_of_mem hnd hk⟩

theorem mem_alValues_of_lookup {k : α} {v : β} {l : List (α × β)}
    (h : alLookup k l = some v) : v ∈ alValues l :=
  mem_alValues_iff.mpr ⟨k, alLookup_mem h⟩

theorem mem_alErase {e : α × β} {k : α} {l : List (α × β)}
    (h : e ∈ alErase k l) : e ∈ l := by
  induction l with
  | nil => simp [alErase] at h
  | cons f t ih =>
    unfold alErase at h
    by_cases hf : f.1 = k
    · rw [if_pos hf] at h
      exact List.mem_cons_of_mem _ (ih h)
    · rw [if_neg hf, List.mem_cons] at h
      rcases h with h | h
      · rw [h]; exact List.mem_cons_self _ _
      · exact List.mem_cons_of_mem _ (ih h)

theorem mem_alValues_alErase {k : α} {v : β} {l : List (α × β)}
    (h : v ∈ alValues (alErase k l)) : v ∈ alValues l := by
  rcases mem_alValues_iff.mp h with ⟨k', hk⟩
  exact mem_alValues_iff.mpr ⟨k', mem_alErase hk⟩

theorem mem_keys_alErase {k k' : α} {l : List (α × β)}
    (h : k' ∈ (alErase k l).map Prod.fst) : k' ∈ l.map Prod.fst ∧ k' ≠ k := by
  rw [keys_alErase] at h
  have := List.mem_filter.mp h
  refine ⟨this.1, by simpa using this.2⟩

end AList

/-- The mutable state of a `ClassicServer` instance, restricted to what the
verified operations can observe.

* `connections` — the key set of `self._connections` (the `Connection`
  values are identified by their address key);
* `players` — `self._players` (`player_id → Player`);
* `players_by_address` — `self._players_by_address`;
* `player_id` — the sequential allocation counter `self._player_id`;
* `max_players` / `op_players` — the configuration fields
  `self._max_players` and `self._op_players`;
* `closed` — the set of connections on which `Connection.close()` has run
  (modelled from the spec: a closed session "has no recorded address");
* `broken` — environment: the addresses whose transport is broken, for
  which `Connection.send` raises an `IOError`;
* `sent` — append-only log of the packets successfully handed to
  `Connection.send`, with the destination address. -/
structure ServerState where
  connections : List Addr
  players : List (Nat × Player)
  players_by_address : List (Addr × Player)
  player_id : Nat
  max_players : Nat
  op_players : List String
  closed : List Addr
  broken : List Addr
  sent : List (Addr × Packet)
  deriving Repr, DecidableEq

/-- Modelled from the spec: `Connection.get_address()` (class `Connection`
is not among the sources under verification).  The spec states that
`address()` "returns a stable session identity usable as a map key" and
that the disconnect protocol is a "no-op if the session has no recorded
address (already cleaned up — idempotence guard)"; accordingly a
connection's recorded address is its accept address until the connection
is closed, after which there is no recorded address. -/
def getAddress (s : ServerState) (c : Addr) : Option Addr :=
  if c ∈ s.closed then none else some c

/-- `x in ignore` for the Python value `connection.get_address()`, which is
either an address or `None` (`None` is never an element of an address
list). -/
def optMem (o : Option Addr) (ignore : List Addr) : Bool :=
  match o with
  | none => false
  | some a => ignore.contains a

@[simp] theorem optMem_nil (o : Option Addr) : optMem o [] = false := by
  cases o <;> rfl

/-- `len(self._players_by_address)`: the measure bounding the
disconnect/broadcast recursion (each disconnect that reaches its broadcast
step first removes one address entry). -/
def Mpba (s : ServerState) : Nat :=
  s.players_by_address.length

/-- The "player has quit" chat line `"&e%s&f has quit!" % player.name`. -/
def quitMessage (name : String) : String :=
  "&e" ++ name ++ "&f has quit!"

/-- The fan-out loop of `ClassicServer.broadcast` (server.py lines
183-190): for each player of the snapshot, send `data` to its connection
unless the connection's address is in `ignore`; an `IOError` on send runs
`self._disconnect(connection)` (passed in as `disc`) and the loop
continues; any other exception raised inside `disc` propagates and aborts
the loop. -/
def broadcastGo (disc : ServerState → Addr → ServerState × Option Err)
    (data : Packet) (ignore : List Addr) :
    ServerState → List Player → ServerState × Option Err
  | s, [] => (s, none)
  | s, p :: rest =>
    if optMem (getAddress s p.addr) ignore then
      broadcastGo disc data ignore s rest
    else if p.addr ∈ s.broken then
      match disc s p.addr with
      | (s', some e) => (s', some e)
      | (s', none) => broadcastGo disc data ignore s' rest
    else
      broadcastGo disc data ignore
        { s with sent := s.sent ++ [(p.addr, data)] } rest

/-- `ClassicServer._disconnect` (server.py lines 192-219), fuel-bounded:
nested broadcasts run their recipient disconnects at one fuel level lower.
`disconnect` below instantiates the fuel with a proven-sufficient value.

Control flow of the source: return if the connection has no recorded
address; `connection.close()` (close errors ignored); look the player up
by address if present; `del self._connections[address]` (a missing key
raises `KeyError`); if a player was found, `del` it from both player maps
(a missing id raises `KeyError`) and broadcast the despawn packet and the
quit chat message. -/
def disconnectF : Nat → ServerState → Addr → ServerState × Option Err
  | 0, s, _ => (s, some Err.outOfFuel)
  | fuel + 1, s, c =>
    match getAddress s c with
    | none => (s, none)
    | some address =>
      let s1 : ServerState := { s with closed := c :: s.closed }
      match alLookup address s1.players_by_address with
      | none =>
        if address ∈ s1.connections then
          ({ s1 with connections := s1.connections.erase address }, none)
        else
          (s1, some Err.keyError)
      | some player =>
        if address ∈ s1.connections then
          let s3 : ServerState :=
            { s1 with
              connections := s1.connections.erase address
              players_by_address := alErase address s1.players_by_address }
          if alContains player.player_id s3.players then
            let s4 : ServerState :=
              { s3 with players := alErase player.player_id s3.players }
            match broadcastGo (disconnectF fuel) (Packet.despawn player.player_id) []
                s4 (alValues s4.players) with
            | (s5, some e) => (s5, some e)
            | (s5, none) =>
              broadcastGo (disconnectF fuel)
                (Packet.message 0 (quitMessage player.name)) []
                s5 (alValues s5.players)
          else
            (s3, some Err.keyError)
        else
          (s1, some Err.keyError)

/-- `ClassicServer._disconnect` with sufficient fuel (shown sufficient by
`disconnectF_noFuelErr`). -/
def disconnect (s : ServerState) (c : Addr) : ServerState × Option Err :=
  disconnectF (Mpba s + 1) s c

/-- `ClassicServer.broadcast(data, ignore=None)` (server.py lines
170-190): `if not ignore: ignore = []`, then fan out over a snapshot of
`self._players.copy().values()`. -/
def broadcast (s : ServerState) (data : Packet) (ignore : Option (List Addr)) :
    ServerState × Option Err :=
  let ig : List Addr :=
    match ignore with
    | none => []
    | some l => l
  broadcastGo (disconnectF (Mpba s + 1)) data ig s (alValues s.players)

/-- `ClassicServer.is_op` (server.py lines 315-327):
`player_name in self._op_players`. -/
def is_op (s : ServerState) (player_name : String) : Bool :=
  s.op_players.contains player_name

/-- `ClassicServer.add_player` (server.py lines 262-296).  Returns the new
state, the returned player id (`none` when the call returns `None`), and a
raised exception if any.

Source control flow: if `len(self._players) < self._max_players or
self.is_op(name)` — allocate an id (take `self._player_id` if its slot is
free and post-increment the counter; otherwise linear-scan `range(256)`
for the first free slot, setting both the counter and the id to it, and
`raise ValueError("No more ID's left")` when no slot is free), build the
`Player` with `user_type = 0x64` iff the name is an op, and insert it into
`self._players` and `self._players_by_address`; else log and send a
`DisconnectPlayerPacket` with reason `"Server full"` (a broken transport
makes that send raise `IOError`). -/
def add_player (s : ServerState) (c : Addr) (coords : List Int) (name : String) :
    ServerState × Option Nat × Option Err :=
  if s.players.length < s.max_players ∨ is_op s name then
    let alloc : Option (Nat × Nat) :=
      -- (assigned id, new counter value)
      if alContains s.player_id s.players then
        match (List.range 256).find? (fun i => ¬ alContains i s.players) with
        | some i => some (i, i)
        | none => none
      else
        some (s.player_id, s.player_id + 1)
    match alloc with
    | none => (s, none, some Err.valueError)
    | some (pid, counter) =>
      let player : Player :=
        { player_id := pid, addr := c, coords := coords, name := name
          user_type := if is_op s name then 0x64 else 0x00 }
      ({ s with
          player_id := counter
          players := alInsert pid player s.players
          players_by_address := alInsert c player s.players_by_address },
        some pid, none)
  else
    if c ∈ s.broken then
      (s, none, some Err.ioError)
    else
      ({ s with sent := s.sent ++ [(c, Packet.disconnectPlayer "Server full")] },
        none, none)

/-- The kick chat line `"Player %s kicked, %s" % (player.name, reason)`. -/
def kickMessage (name reason : String) : String :=
  "Player " ++ name ++ " kicked, " ++ reason

/-- `ClassicServer.kick_player` (server.py lines 298-313): look the player
up by id (`KeyError` when absent), send it a `DisconnectPlayerPacket` with
the reason (`IOError` on a broken transport), `del self._players[player_id]`,
broadcast the kick chat message, then run `self._disconnect` on the
player's connection. -/
def kick_player (s : ServerState) (pid : Nat) (reason : String) :
    ServerState × Option Err :=
  match alLookup pid s.players with
  | none => (s, some Err.keyError)
  | some player =>
    if player.addr ∈ s.broken then
      (s, some Err.ioError)
    else
      let s1 : ServerState :=
        { s with sent := s.sent ++ [(player.addr, Packet.disconnectPlayer reason)] }
      let s2 : ServerState := { s1 with players := alErase pid s1.players }
      match broadcast s2 (Packet.message 0 (kickMessage player.name reason)) none with
      | (s3, some e) => (s3, some e)
      | (s3, none) => disconnect s3 player.addr

section WorldLoading

/-- Outcomes of `open(self._save_file, "rb").read()`:
the file is absent (`FileNotFoundError`), reading fails (`IOError`), or
the bytes are returned. -/
inductive FileRead where
  | notFound
  | readError
  | content (bytes : List Nat)
  deriving Repr, DecidableEq

/-- Worlds as `load_world` can observe them: decoded from save bytes, or
the freshly generated default `World()`. -/
inductive WorldV where
  | decoded (bytes : List Nat)
  | defaultWorld
  deriving Repr, DecidableEq

/-- `ClassicServer.load_world` (server.py lines 236-247), parametrised by
the decoder `World.from_save`.

Modelled from the spec: class `World` is not among the sources under
verification; per the spec its `decode` "fails with a `FormatError` if
bytes are malformed or truncated", which the source catches as
`(IOError, ValueError)`.  The decoder is therefore any function
`dec : bytes → Option WorldV`, `none` standing for a raised
`ValueError`/`IOError`.  `load_world` installs the decoded world on
success and falls back to a fresh default `World()` on a missing file, a
read error, or a decode error. -/
def load_world (dec : List Nat → Option WorldV) (f : FileRead) : WorldV :=
  match f with
  | FileRead.content bytes =>
    match dec bytes with
    | some w => w
    | none => WorldV.defaultWorld
  | FileRead.notFound => WorldV.defaultWorld
  | FileRead.readError => WorldV.defaultWorld

end WorldLoading

section Salt

/-- `string.ascii_letters + string.digits`, the alphabet
`generate_salt` draws from. -/
def base_62 : List Char :=
  "abcdefghijklmnopqrstuvwxyzABCDEFGHIJKLMNOPQRSTUVWXYZ0123456789".toList

theorem base_62_length : base_62.length = 62 := by decide

/-- `ClassicServer.generate_salt` (server.py lines 256-260):
`"".join([random.choice(base_62) for _ in range(16)])`.  The random
choices are modelled by a stream `rand` of in-range indices
(`random.choice(seq)` returns `seq[i]` for an index `i < len(seq)`). -/
def generate_salt (rand : Nat → Fin base_62.length) : String :=
  String.mk (((List.range 16).map (fun i => base_62.get (rand i))))

end Salt

/-! ## Registry consistency invariant -/

/-- Consistency of the three registry maps, parametrised by an optional
"dangling" address entry `d`: `kick_player` removes a player from the ID
map before `_disconnect` has removed its address entry, so between those
two steps exactly the entry `d` of `_players_by_address` may point to a
player that is no longer in `_players`.  `InvD s none` is the clean
invariant of §3 of the spec. -/
def InvD (s : ServerState) (d : Option (Addr × Player)) : Prop :=
  NodupKeys s.players ∧
  NodupKeys s.players_by_address ∧
  s.connections.Nodup ∧
  (∀ a ∈ s.connections, a ∉ s.closed) ∧
  (∀ e ∈ s.players, e.2.player_id = e.1 ∧
      alLookup e.2.addr s.players_by_address = some e.2) ∧
  (∀ e ∈ s.players_by_address, e.2.addr = e.1 ∧ e.1 ∈ s.connections ∧
      (alLookup e.2.player_id s.players = some e.2 ∨
        (d = some e ∧ alLookup e.2.player_id s.players = none)))

/-- The three registry maps are mutually consistent (§3 invariant). -/
def Inv (s : ServerState) : Prop := InvD s none

instance (s : ServerState) (d : Option (Addr × Player)) : Decidable (InvD s d) := by
  unfold InvD; infer_instance

instance (s : ServerState) : Decidable (Inv s) := by
  unfold Inv; infer_instance

theorem InvD_of_Inv {s : ServerState} (h : Inv s) (d : Option (Addr × Player)) :
    InvD s d := by
  obtain ⟨h1, h2, h3, h4, h5, h6⟩ := h
  refine ⟨h1, h2, h3, h4, h5, fun e he => ?_⟩
  obtain ⟨haa, hb, hc⟩ := h6 e he
  rcases hc with hc | hc
  · exact ⟨haa, hb, Or.inl hc⟩
  · exact absurd hc.1 (by simp)

/-- Under the invariant, every player value of the ID map is synchronised:
its address entry is itself, and its recorded id looks it up. -/
theorem values_synced {s : ServerState} {d : Option (Addr × Player)}
    (h : InvD s d) {q : Player} (hq : q ∈ alValues s.players) :
    alLookup q.addr s.players_by_address = some q ∧
      alLookup q.player_id s.players = some q := by
  obtain ⟨h1, _, _, _, h5, _⟩ := h
  rcases mem_alValues_iff.mp hq with ⟨i, hi⟩
  obtain ⟨hid, hpba⟩ := h5 (i, q) hi
  refine ⟨hpba, ?_⟩
  have : alLookup i s.players = some q := alLookup_eq_some_of_mem h1 hi
  rw [show q.player_id = i from hid]
  exact this

/-- Consistency as claim C1 states it: every address entry points at a
player live in the ID map whose connection is live; no address is shared
by two registered players; no ID is held twice. -/
def RegistryConsistent (s : ServerState) : Prop :=
  NodupKeys s.players ∧
  (∀ e ∈ s.players_by_address,
      alLookup e.2.player_id s.players = some e.2 ∧ e.1 ∈ s.connections) ∧
  (∀ e ∈ s.players, ∀ f ∈ s.players, e.2.addr = f.2.addr → e = f)

instance (s : ServerState) : Decidable (RegistryConsistent s) := by
  unfold RegistryConsistent; infer_instance

theorem RegistryConsistent_of_Inv {s : ServerState} (h : Inv s) :
    RegistryConsistent s := by
  obtain ⟨h1, h2, h3, h4, h5, h6⟩ := h
  refine ⟨h1, fun e he => ?_, fun e he f hf hef => ?_⟩
  · obtain ⟨haa, hb, hc⟩ := h6 e he
    rcases hc with hc | hc
    · exact ⟨hc, hb⟩
    · exact absurd hc.1 (by simp)
  · obtain ⟨hid1, hpa⟩ := h5 e he
    obtain ⟨hjd, hpb⟩ := h5 f hf
    rw [hef] at hpa
    rw [hpa] at hpb
    have hv : e.2 = f.2 := by
      have := hpb
      injection this
    have hk : e.1 = f.1 := by rw [← hid1, ← hjd, hv]
    cases e; cases f
    simp_all

/-! ## Branch characterisations of the disconnect protocol -/

theorem broadcastGo_nil (disc : ServerState → Addr → ServerState × Option Err)
    (data : Packet) (ig : List Addr) (s : ServerState) :
    broadcastGo disc data ig s [] = (s, none) := rfl

theorem broadcastGo_cons_skip (disc : ServerState → Addr → ServerState × Option Err)
    (data : Packet) (ig : List Addr) (s : ServerState) (p : Player) (rest : List Player)
    (h : optMem (getAddress s p.addr) ig = true) :
    broadcastGo disc data ig s (p :: rest) = broadcastGo disc data ig s rest := by
  conv_lhs => rw [broadcastGo]
  rw [if_pos h]

theorem broadcastGo_cons_send (disc : ServerState → Addr → ServerState × Option Err)
    (data : Packet) (ig : List Addr) (s : ServerState) (p : Player) (rest : List Player)
    (h : optMem (getAddress s p.addr) ig = false) (hb : p.addr ∉ s.broken) :
    broadcastGo disc data ig s (p :: rest) =
      broadcastGo disc data ig { s with sent := s.sent ++ [(p.addr, data)] } rest := by
  conv_lhs => rw [broadcastGo]
  rw [if_neg (by rw [h]; exact Bool.false_ne_true), if_neg hb]

theorem broadcastGo_cons_fail (disc : ServerState → Addr → ServerState × Option Err)
    (data : Packet) (ig : List Addr) (s : ServerState) (p : Player) (rest : List Player)
    (h : optMem (getAddress s p.addr) ig = false) (hb : p.addr ∈ s.broken) :
    broadcastGo disc data ig s (p :: rest) =
      match disc s p.addr with
      | (s', some e) => (s', some e)
      | (s', none) => broadcastGo disc data ig s' rest := by
  conv_lhs => rw [broadcastGo]
  rw [if_neg (by rw [h]; exact Bool.false_ne_true), if_pos hb]

theorem disconnectF_zero (s : ServerState) (c : Addr) :
    disconnectF 0 s c = (s, some Err.outOfFuel) := rfl

theorem disconnectF_closed (fuel : Nat) (s : ServerState) (c : Addr)
    (hc : c ∈ s.closed) : disconnectF (fuel + 1) s c = (s, none) := by
  conv_lhs => rw [disconnectF]
  rw [show getAddress s c = none from by unfold getAddress; rw [if_pos hc]]

theorem disconnectF_noPlayer_conn (fuel : Nat) (s : ServerState) (c : Addr)
    (hc : c ∉ s.closed) (hp : alLookup c s.players_by_address = none)
    (hcon : c ∈ s.connections) :
    disconnectF (fuel + 1) s c =
      ({ s with closed := c :: s.closed,
                connections := s.connections.erase c }, none) := by
  conv_lhs => rw [disconnectF]
  rw [show getAddress s c = some c from by unfold getAddress; rw [if_neg hc]]
  dsimp only
  rw [hp]
  dsimp only
  rw [if_pos hcon]

theorem disconnectF_noPlayer_noConn (fuel : Nat) (s : ServerState) (c : Addr)
    (hc : c ∉ s.closed) (hp : alLookup c s.players_by_address = none)
    (hcon : c ∉ s.connections) :
    disconnectF (fuel + 1) s c =
      ({ s with closed := c :: s.closed }, some Err.keyError) := by
  conv_lhs => rw [disconnectF]
  rw [show getAddress s c = some c from by unfold getAddress; rw [if_neg hc]]
  dsimp only
  rw [hp]
  dsimp only
  rw [if_neg hcon]

theorem disconnectF_player_noConn (fuel : Nat) (s : ServerState) (c : Addr)
    (player : Player)
    (hc : c ∉ s.closed) (hp : alLookup c s.players_by_address = some player)
    (hcon : c ∉ s.connections) :
    disconnectF (fuel + 1) s c =
      ({ s with closed := c :: s.closed }, some Err.keyError) := by
  conv_lhs => rw [disconnectF]
  rw [show getAddress s c = some c from by unfold getAddress; rw [if_neg hc]]
  dsimp only
  rw [hp]
  dsimp only
  rw [if_neg hcon]

theorem disconnectF_player_gone (fuel : Nat) (s : ServerState) (c : Addr)
    (player : Player)
    (hc : c ∉ s.closed) (hp : alLookup c s.players_by_address = some player)
    (hcon : c ∈ s.connections)
    (hpid : alContains player.player_id s.players = false) :
    disconnectF (fuel + 1) s c =
      ({ s with closed := c :: s.closed,
                connections := s.connections.erase c,
                players_by_address := alErase c s.players_by_address },
        some Err.keyError) := by
  conv_lhs => rw [disconnectF]
  rw [show getAddress s c = some c from by unfold getAddress; rw [if_neg hc]]
  dsimp only
  rw [hp]
  dsimp only
  rw [if_pos hcon]
  rw [hpid]
  rw [if_neg Bool.false_ne_true]

/-- The state of `_disconnect` right after the three `del`s succeeded, just
before the two broadcasts. -/
def purged (s : ServerState) (c : Addr) (pid : Nat) : ServerState :=
  { s with closed := c :: s.closed,
           connections := s.connections.erase c,
           players_by_address := alErase c s.players_by_address,
           players := alErase pid s.players }

theorem disconnectF_player_present (fuel : Nat) (s : ServerState) (c : Addr)
    (player : Player)
    (hc : c ∉ s.closed) (hp : alLookup c s.players_by_address = some player)
    (hcon : c ∈ s.connections)
    (hpid : alContains player.player_id s.players = true) :
    disconnectF (fuel + 1) s c =
      match broadcastGo (disconnectF fuel) (Packet.despawn player.player_id) []
          (purged s c player.player_id) (alValues (purged s c player.player_id).players) with
      | (s5, some e) => (s5, some e)
      | (s5, none) =>
        broadcastGo (disconnectF fuel)
          (Packet.message 0 (quitMessage player.name)) []
          s5 (alValues s5.players) := by
  unfold purged
  conv_lhs => rw [disconnectF]
  rw [show getAddress s c = some c from by unfold getAddress; rw [if_neg hc]]
  dsimp only
  rw [hp]
  dsimp only
  rw [if_pos hcon]
  rw [hpid]
  rw [if_pos rfl]

/-! ## What one disconnect / broadcast step guarantees -/

/-- Everything the disconnect protocol and the broadcast fan-out guarantee
about a state transition `s → r.1` (with raised exception `r.2`): the
address map never grows, fuel never runs out (for the bound used below),
the send log is append-only, closing is permanent, configuration is
untouched, the registries only shrink, a removed address entry or
connection is always closed, the consistency invariant is preserved, a
player removed from the ID map has its address closed, and a freshly
closed address has no surviving address entry. -/
structure StepOk (s : ServerState) (r : ServerState × Option Err) : Prop where
  mpba_le : Mpba r.1 ≤ Mpba s
  no_fuel : r.2 ≠ some Err.outOfFuel
  sent_mono : ∃ t, r.1.sent = s.sent ++ t
  closed_mono : ∀ a, a ∈ s.closed → a ∈ r.1.closed
  broken_eq : r.1.broken = s.broken
  player_id_eq : r.1.player_id = s.player_id
  max_players_eq : r.1.max_players = s.max_players
  op_players_eq : r.1.op_players = s.op_players
  pba_sub : ∀ a q, alLookup a r.1.players_by_address = some q →
      alLookup a s.players_by_address = some q
  players_sub : ∀ i q, alLookup i r.1.players = some q → alLookup i s.players = some q
  conn_sub : ∀ a, a ∈ r.1.connections → a ∈ s.connections
  pba_stable : ∀ a q, alLookup a s.players_by_address = some q →
      alLookup a r.1.players_by_address = some q ∨ a ∈ r.1.closed
  conn_stable : ∀ a, a ∈ s.connections → a ∈ r.1.connections ∨ a ∈ r.1.closed
  inv_pres : ∀ d, InvD s d → InvD r.1 d
  players_stable : ∀ d, InvD s d → ∀ i q, alLookup i s.players = some q →
      alLookup i r.1.players = some q ∨ q.addr ∈ r.1.closed
  new_closed_clean : ∀ d, InvD s d → ∀ a, a ∉ s.closed → a ∈ r.1.closed →
      alLookup a r.1.players_by_address = none

theorem StepOk_id (s : ServerState) (e : Option Err) (he : e ≠ some Err.outOfFuel) :
    StepOk s (s, e) where
  mpba_le := le_refl _
  no_fuel := he
  sent_mono := ⟨[], by simp⟩
  closed_mono := fun _ h => h
  broken_eq := rfl
  player_id_eq := rfl
  max_players_eq := rfl
  op_players_eq := rfl
  pba_sub := fun _ _ h => h
  players_sub := fun _ _ h => h
  conn_sub := fun _ h => h
  pba_stable := fun _ _ h => Or.inl h
  conn_stable := fun _ h => Or.inl h
  inv_pres := fun _ h => h
  players_stable := fun _ _ _ _ h => Or.inl h
  new_closed_clean := fun _ _ _ h1 h2 => absurd h2 h1

/-- Appending to the send log changes nothing the invariant observes. -/
theorem StepOk_sent (s : ServerState) (l : List (Addr × Packet)) :
    StepOk s ({ s with sent := s.sent ++ l }, none) where
  mpba_le := le_refl _
  no_fuel := by simp
  sent_mono := ⟨l, rfl⟩
  closed_mono := fun _ h => h
  broken_eq := rfl
  player_id_eq := rfl
  max_players_eq := rfl
  op_players_eq := rfl
  pba_sub := fun _ _ h => h
  players_sub := fun _ _ h => h
  conn_sub := fun _ h => h
  pba_stable := fun _ _ h => Or.inl h
  conn_stable := fun _ h => Or.inl h
  inv_pres := fun _ h => h
  players_stable := fun _ _ _ _ h => Or.inl h
  new_closed_clean := fun _ _ _ h1 h2 => absurd h2 h1

theorem StepOk_trans {s s1 : ServerState} {r : ServerState × Option Err}
    (h1 : StepOk s (s1, none)) (h2 : StepOk s1 r) : StepOk s r where
  mpba_le := le_trans h2.mpba_le h1.mpba_le
  no_fuel := h2.no_fuel
  sent_mono := by
    rcases h1.sent_mono with ⟨t1, ht1⟩
    rcases h2.sent_mono with ⟨t2, ht2⟩
    exact ⟨t1 ++ t2, by rw [ht2, ht1, List.append_assoc]⟩
  closed_mono := fun a h => h2.closed_mono a (h1.closed_mono a h)
  broken_eq := by rw [h2.broken_eq, h1.broken_eq]
  player_id_eq := by rw [h2.player_id_eq, h1.player_id_eq]
  max_players_eq := by rw [h2.max_players_eq, h1.max_players_eq]
  op_players_eq := by rw [h2.op_players_eq, h1.op_players_eq]
  pba_sub := fun a q h => h1.pba_sub a q (h2.pba_sub a q h)
  players_sub := fun i q h => h1.players_sub i q (h2.players_sub i q h)
  conn_sub := fun a h => h1.conn_sub a (h2.conn_sub a h)
  pba_stable := fun a q h => by
    rcases h1.pba_stable a q h with h' | h'
    · exact h2.pba_stable a q h'
    · exact Or.inr (h2.closed_mono a h')
  conn_stable := fun a h => by
    rcases h1.conn_stable a h with h' | h'
    · exact h2.conn_stable a h'
    · exact Or.inr (h2.closed_mono a h')
  inv_pres := fun d hd => h2.inv_pres d (h1.inv_pres d hd)
  players_stable := fun d hd i q h => by
    rcases h1.players_stable d hd i q h with h' | h'
    · rcases h2.players_stable d (h1.inv_pres d hd) i q h' with h'' | h''
      · exact Or.inl h''
      · exact Or.inr h''
    · exact Or.inr (h2.closed_mono _ h')
  new_closed_clean := fun d hd a hna hcl => by
    by_cases hmid : a ∈ s1.closed
    · have hnone := h1.new_closed_clean d hd a hna hmid
      cases hq : alLookup a r.1.players_by_address with
      | none => rfl
      | some q => rw [h2.pba_sub a q hq] at hnone; exact absurd hnone (by simp)
    · exact h2.new_closed_clean d (h1.inv_pres d hd) a hmid hcl

/-- `_disconnect` on a connection that is open but not in the connection
table: `del self._connections[address]` raises `KeyError` after the close. -/
theorem StepOk_closeOnly (s : ServerState) (c : Addr) (hcon : c ∉ s.connections) :
    StepOk s ({ s with closed := c :: s.closed }, some Err.keyError) where
  mpba_le := le_refl _
  no_fuel := by simp
  sent_mono := ⟨[], by simp⟩
  closed_mono := fun _ h => List.mem_cons_of_mem _ h
  broken_eq := rfl
  player_id_eq := rfl
  max_players_eq := rfl
  op_players_eq := rfl
  pba_sub := fun _ _ h => h
  players_sub := fun _ _ h => h
  conn_sub := fun _ h => h
  pba_stable := fun _ _ h => Or.inl h
  conn_stable := fun _ h => Or.inl h
  inv_pres := fun d hd => by
    obtain ⟨n1, n2, n3, h4, h5, h6⟩ := hd
    refine ⟨n1, n2, n3, ?_, h5, h6⟩
    intro a ha hmem
    rcases List.mem_cons.mp hmem with h | h
    · rw [h] at ha; exact hcon ha
    · exact h4 a ha h
  players_stable := fun _ _ _ _ h => Or.inl h
  new_closed_clean := fun d hd a hna hcl => by
    obtain ⟨n1, n2, n3, h4, h5, h6⟩ := hd
    rcases List.mem_cons.mp hcl with h | h
    · rw [h]
      cases hq : alLookup c s.players_by_address with
      | none => rfl
      | some q =>
        have := (h6 (c, q) (alLookup_mem hq)).2.1
        exact absurd this hcon
    · exact absurd h hna

/-- `_disconnect` on a live connection with no associated player: close it
and drop it from the connection table. -/
theorem StepOk_noPlayerConn (s : ServerState) (c : Addr)
    (hp : alLookup c s.players_by_address = none) (_hcon : c ∈ s.connections) :
    StepOk s ({ s with closed := c :: s.closed,
                       connections := s.connections.erase c }, none) where
  mpba_le := le_refl _
  no_fuel := by simp
  sent_mono := ⟨[], by simp⟩
  closed_mono := fun _ h => List.mem_cons_of_mem _ h
  broken_eq := rfl
  player_id_eq := rfl
  max_players_eq := rfl
  op_players_eq := rfl
  pba_sub := fun _ _ h => h
  players_sub := fun _ _ h => h
  conn_sub := fun _ h => List.mem_of_mem_erase h
  pba_stable := fun _ _ h => Or.inl h
  conn_stable := fun a h => by
    by_cases hac : a = c
    · exact Or.inr (by rw [hac]; exact List.mem_cons_self _ _)
    · exact Or.inl ((List.mem_erase_of_ne hac).mpr h)
  inv_pres := fun d hd => by
    obtain ⟨n1, n2, n3, h4, h5, h6⟩ := hd
    refine ⟨n1, n2, n3.erase c, ?_, h5, ?_⟩
    · intro a ha hmem
      have hh := (n3.mem_erase_iff).mp ha
      rcases List.mem_cons.mp hmem with h | h
      · exact hh.1 h
      · exact h4 a hh.2 h
    · intro f hf
      obtain ⟨f1, f2, f3⟩ := h6 f hf
      have hfc : f.1 ≠ c := by
        intro hh
        have hmem2 : (c, f.2) ∈ s.players_by_address := by rw [← hh]; exact hf
        have hlk := alLookup_eq_some_of_mem n2 hmem2
        rw [hp] at hlk
        exact Option.noConfusion hlk
      exact ⟨f1, (List.mem_erase_of_ne hfc).mpr f2, f3⟩
  players_stable := fun _ _ _ _ h => Or.inl h
  new_closed_clean := fun d hd a hna hcl => by
    rcases List.mem_cons.mp hcl with h | h
    · rw [h]; exact hp
    · exact absurd h hna

/-- `_disconnect` finding a player whose id is no longer in the ID map
(the `kick_player` interleaving): the two `del`s on the connection table
and the address map succeed, then `del self._players[...]` raises
`KeyError` before any broadcast. -/
theorem StepOk_playerGone (s : ServerState) (c : Addr) (player : Player)
    (hp : alLookup c s.players_by_address = some player) (_hcon : c ∈ s.connections)
    (hpid : alContains player.player_id s.players = false) :
    StepOk s ({ s with closed := c :: s.closed,
                       connections := s.connections.erase c,
                       players_by_address := alErase c s.players_by_address },
      some Err.keyError) where
  mpba_le := by unfold Mpba; exact length_alErase_le
  no_fuel := by simp
  sent_mono := ⟨[], by simp⟩
  closed_mono := fun _ h => List.mem_cons_of_mem _ h
  broken_eq := rfl
  player_id_eq := rfl
  max_players_eq := rfl
  op_players_eq := rfl
  pba_sub := fun _ _ h => alLookup_alErase h
  players_sub := fun _ _ h => h
  conn_sub := fun _ h => List.mem_of_mem_erase h
  pba_stable := fun a q h => by
    by_cases hac : a = c
    · exact Or.inr (by rw [hac]; exact List.mem_cons_self _ _)
    · exact Or.inl (by rw [alLookup_alErase_ne c a _ hac]; exact h)
  conn_stable := fun a h => by
    by_cases hac : a = c
    · exact Or.inr (by rw [hac]; exact List.mem_cons_self _ _)
    · exact Or.inl ((List.mem_erase_of_ne hac).mpr h)
  inv_pres := fun d hd => by
    obtain ⟨n1, n2, n3, h4, h5, h6⟩ := hd
    have hnone : alLookup player.player_id s.players = none := by
      cases hq : alLookup player.player_id s.players with
      | none => rfl
      | some q =>
        have : alContains player.player_id s.players = true :=
          alContains_iff.mpr ⟨q, hq⟩
        rw [this] at hpid
        exact Bool.noConfusion hpid
    refine ⟨n1, NodupKeys_alErase _ _ n2, n3.erase c, ?_, ?_, ?_⟩
    · intro a ha hmem
      have hh := (n3.mem_erase_iff).mp ha
      rcases List.mem_cons.mp hmem with h | h
      · exact hh.1 h
      · exact h4 a hh.2 h
    · intro e he
      obtain ⟨e1, e2⟩ := h5 e he
      refine ⟨e1, ?_⟩
      have heka : e.2.addr ≠ c := by
        intro hh
        rw [hh, hp] at e2
        have hep : player = e.2 := by injection e2
        have helk : alLookup e.1 s.players = some e.2 :=
          alLookup_eq_some_of_mem n1 he
        rw [← e1, ← hep] at helk
        rw [helk] at hnone
        exact Option.noConfusion hnone
      rw [alLookup_alErase_ne c _ _ heka]
      exact e2
    · intro f hf
      have hfs := mem_alErase hf
      obtain ⟨f1, f2, f3⟩ := h6 f hfs
      have hf1c : f.1 ≠ c :=
        (mem_keys_alErase (List.mem_map_of_mem Prod.fst hf)).2
      exact ⟨f1, (List.mem_erase_of_ne hf1c).mpr f2, f3⟩
  players_stable := fun _ _ _ _ h => Or.inl h
  new_closed_clean := fun d hd a hna hcl => by
    rcases List.mem_cons.mp hcl with h | h
    · rw [h]; exact alLookup_alErase_self c _
    · exact absurd h hna

/-- `_disconnect` on a live connection with a live player: close it,
remove it from all three maps.  `purged` is the state handed to the two
broadcasts. -/
theorem StepOk_purged (s : ServerState) (c : Addr) (player : Player)
    (hp : alLookup c s.players_by_address = some player) (_hcon : c ∈ s.connections)
    (_hpid : alContains player.player_id s.players = true) :
    StepOk s (purged s c player.player_id, none) where
  mpba_le := by unfold purged Mpba; exact length_alErase_le
  no_fuel := by simp
  sent_mono := ⟨[], by unfold purged; simp⟩
  closed_mono := fun _ h => List.mem_cons_of_mem _ h
  broken_eq := rfl
  player_id_eq := rfl
  max_players_eq := rfl
  op_players_eq := rfl
  pba_sub := fun _ _ h => alLookup_alErase h
  players_sub := fun _ _ h => alLookup_alErase h
  conn_sub := fun _ h => List.mem_of_mem_erase h
  pba_stable := fun a q h => by
    by_cases hac : a = c
    · exact Or.inr (by rw [hac]; unfold purged; exact List.mem_cons_self _ _)
    · refine Or.inl ?_
      show alLookup a (alErase c s.players_by_address) = some q
      rw [alLookup_alErase_ne c a _ hac]
      exact h
  conn_stable := fun a h => by
    by_cases hac : a = c
    · exact Or.inr (by rw [hac]; unfold purged; exact List.mem_cons_self _ _)
    · exact Or.inl ((List.mem_erase_of_ne hac).mpr h)
  inv_pres := fun d hd => by
    obtain ⟨n1, n2, n3, h4, h5, h6⟩ := hd
    have hpaddr : player.addr = c := (h6 (c, player) (alLookup_mem hp)).1
    refine ⟨NodupKeys_alErase _ _ n1, NodupKeys_alErase _ _ n2, n3.erase c, ?_, ?_, ?_⟩
    · intro a ha hmem
      have hh := (n3.mem_erase_iff).mp ha
      rcases List.mem_cons.mp hmem with h | h
      · exact hh.1 h
      · exact h4 a hh.2 h
    · intro e he
      have hes : e ∈ s.players := mem_alErase he
      obtain ⟨e1, e2⟩ := h5 e hes
      refine ⟨e1, ?_⟩
      have heka : e.2.addr ≠ c := by
        intro hh
        rw [hh, hp] at e2
        have hep : player = e.2 := by injection e2
        have hkey : e.1 ≠ player.player_id :=
          (mem_keys_alErase (List.mem_map_of_mem Prod.fst he)).2
        apply hkey
        rw [← e1, ← hep]
      show alLookup e.2.addr (alErase c s.players_by_address) = some e.2
      rw [alLookup_alErase_ne c _ _ heka]
      exact e2
    · intro f hf
      have hfs := mem_alErase hf
      obtain ⟨f1, f2, f3⟩ := h6 f hfs
      have hf1c : f.1 ≠ c :=
        (mem_keys_alErase (List.mem_map_of_mem Prod.fst hf)).2
      refine ⟨f1, (List.mem_erase_of_ne hf1c).mpr f2, ?_⟩
      rcases f3 with f3 | f3
      · refine Or.inl ?_
        have hfid : f.2.player_id ≠ player.player_id := by
          intro hh
          rcases (h6 (c, player) (alLookup_mem hp)).2.2 with hcase | hcase
          · rw [hh] at f3
            rw [f3] at hcase
            have hfp : f.2 = player := by injection hcase
            apply hf1c
            rw [← f1, hfp, hpaddr]
          · rw [hh] at f3
            rw [f3] at hcase
            exact Option.noConfusion hcase.2
        show alLookup f.2.player_id (alErase player.player_id s.players) = some f.2
        rw [alLookup_alErase_ne _ _ _ hfid]
        exact f3
      · refine Or.inr ⟨f3.1, ?_⟩
        show alLookup f.2.player_id (alErase player.player_id s.players) = none
        cases hq : alLookup f.2.player_id (alErase player.player_id s.players) with
        | none => rfl
        | some q =>
          have := alLookup_alErase hq
          rw [f3.2] at this
          exact Option.noConfusion this
  players_stable := fun d hd i q h => by
    obtain ⟨n1, n2, n3, h4, h5, h6⟩ := hd
    by_cases hip : i = player.player_id
    · refine Or.inr ?_
      have hqe : (i, q) ∈ s.players := alLookup_mem h
      rcases (h6 (c, player) (alLookup_mem hp)).2.2 with hcase | hcase
      · rw [hip] at h
        rw [h] at hcase
        have hqp : q = player := by injection hcase
        have hqc : q.addr = c := by
          rw [hqp]
          exact (h6 (c, player) (alLookup_mem hp)).1
        rw [hqc]
        unfold purged
        exact List.mem_cons_self _ _
      · rw [hip] at h
        rw [h] at hcase
        exact Option.noConfusion hcase.2
    · refine Or.inl ?_
      show alLookup i (alErase player.player_id s.players) = some q
      rw [alLookup_alErase_ne _ _ _ hip]
      exact h
  new_closed_clean := fun d hd a hna hcl => by
    rcases List.mem_cons.mp hcl with h | h
    · rw [h]
      show alLookup c (alErase c s.players_by_address) = none
      exact alLookup_alErase_self c _
    · exact absurd h hna

/-- The broadcast fan-out satisfies `StepOk` whenever the disconnect
routine it is given does (below the fuel bound). -/
theorem broadcastGo_StepOk {disc : ServerState → Addr → ServerState × Option Err}
    {fuel : Nat} (hdisc : ∀ s' a, Mpba s' < fuel → StepOk s' (disc s' a))
    (data : Packet) (ig : List Addr) :
    ∀ (snap : List Player) (s : ServerState), Mpba s < fuel →
      StepOk s (broadcastGo disc data ig s snap) := by
  intro snap
  induction snap with
  | nil =>
    intro s _
    rw [broadcastGo_nil]
    exact StepOk_id s none (by simp)
  | cons p rest ih =>
    intro s hs
    by_cases hskip : optMem (getAddress s p.addr) ig = true
    · rw [broadcastGo_cons_skip disc data ig s p rest hskip]
      exact ih s hs
    · have hskip2 : optMem (getAddress s p.addr) ig = false := by
        cases hb : optMem (getAddress s p.addr) ig
        · rfl
        · exact absurd hb hskip
      by_cases hbr : p.addr ∈ s.broken
      · rw [broadcastGo_cons_fail disc data ig s p rest hskip2 hbr]
        have hd := hdisc s p.addr hs
        cases hr : disc s p.addr with
        | mk s1 e =>
          rw [hr] at hd
          cases e with
          | some err => exact hd
          | none =>
            have hm1 : Mpba s1 < fuel := lt_of_le_of_lt hd.mpba_le hs
            exact StepOk_trans hd (ih s1 hm1)
      · rw [broadcastGo_cons_send disc data ig s p rest hskip2 hbr]
        exact StepOk_trans (StepOk_sent s [(p.addr, data)]) (ih _ hs)

/-- The disconnect protocol satisfies `StepOk` whenever the fuel exceeds
the size of the address map; in particular the fuel the top-level
operations use is sufficient. -/
theorem disconnectF_StepOk :
    ∀ (fuel : Nat) (s : ServerState) (c : Addr), Mpba s < fuel →
      StepOk s (disconnectF fuel s c) := by
  intro fuel
  induction fuel with
  | zero =>
    intro s c h
    exact absurd h (Nat.not_lt_zero _)
  | succ fuel ih =>
    intro s c hfuel
    by_cases hc : c ∈ s.closed
    · rw [disconnectF_closed fuel s c hc]
      exact StepOk_id s none (by simp)
    · cases hp : alLookup c s.players_by_address with
      | none =>
        by_cases hcon : c ∈ s.connections
        · rw [disconnectF_noPlayer_conn fuel s c hc hp hcon]
          exact StepOk_noPlayerConn s c hp hcon
        · rw [disconnectF_noPlayer_noConn fuel s c hc hp hcon]
          exact StepOk_closeOnly s c hcon
      | some player =>
        by_cases hcon : c ∈ s.connections
        · cases hpid : alContains player.player_id s.players with
          | false =>
            rw [disconnectF_player_gone fuel s c player hc hp hcon hpid]
            exact StepOk_playerGone s c player hp hcon hpid
          | true =>
            rw [disconnectF_player_present fuel s c player hc hp hcon hpid]
            have hstep := StepOk_purged s c player hp hcon hpid
            have hmp : Mpba (purged s c player.player_id) < fuel := by
              have hlt : (alErase c s.players_by_address).length
                  < s.players_by_address.length := length_alErase_lt hp
              unfold purged Mpba
              unfold Mpba at hfuel
              simp only
              omega
            have hb1 := broadcastGo_StepOk ih (Packet.despawn player.player_id) []
              (alValues (purged s c player.player_id).players)
              (purged s c player.player_id) hmp
            cases hr1 : broadcastGo (disconnectF fuel) (Packet.despawn player.player_id) []
                (purged s c player.player_id)
                (alValues (purged s c player.player_id).players) with
            | mk s5 e1 =>
              rw [hr1] at hb1
              cases e1 with
              | some err => exact StepOk_trans hstep hb1
              | none =>
                have hm5 : Mpba s5 < fuel := lt_of_le_of_lt hb1.mpba_le hmp
                have hb2 := broadcastGo_StepOk ih
                  (Packet.message 0 (quitMessage player.name)) []
                  (alValues s5.players) s5 hm5
                exact StepOk_trans hstep (StepOk_trans hb1 hb2)
        · rw [disconnectF_player_noConn fuel s c player hc hp hcon]
          exact StepOk_closeOnly s c hcon

/-! ## The disconnect protocol raises nothing on well-formed targets -/

/-- A target on which `_disconnect` completes without raising: either the
session is already closed (the idempotence guard returns early) or it is
still in the connection table and any player found under its address is
still registered under its id. -/
def DTargetOk (s : ServerState) (c : Addr) : Prop :=
  c ∈ s.closed ∨ (c ∈ s.connections ∧
    ∀ q, alLookup c s.players_by_address = some q →
      alLookup q.player_id s.players = some q)

/-- A broadcast recipient that cannot make the loop raise: its session is
closed (a send failure then disconnects a closed session, a no-op), or it
is still fully registered. -/
def BTargetOk (s : ServerState) (p : Player) : Prop :=
  p.addr ∈ s.closed ∨
    (alLookup p.addr s.players_by_address = some p ∧
      alLookup p.player_id s.players = some p)

theorem BTargetOk_of_values {s : ServerState} {d : Option (Addr × Player)}
    (h : InvD s d) {q : Player} (hq : q ∈ alValues s.players) : BTargetOk s q :=
  Or.inr ⟨(values_synced h hq).1, (values_synced h hq).2⟩

/-- `BTargetOk` survives any `StepOk` transition that preserves the
invariant. -/
theorem BTargetOk_mono {s : ServerState} {r : ServerState × Option Err}
    {d : Option (Addr × Player)} (hs : StepOk s r) (hd : InvD s d)
    {p : Player} (h : BTargetOk s p) : BTargetOk r.1 p := by
  rcases h with h | ⟨h1, h2⟩
  · exact Or.inl (hs.closed_mono _ h)
  · rcases hs.pba_stable p.addr p h1 with h1' | h1'
    · rcases hs.players_stable d hd p.player_id p h2 with h2' | h2'
      · exact Or.inr ⟨h1', h2'⟩
      · exact Or.inl h2'
    · exact Or.inl h1'

theorem DTargetOk_of_BTargetOk {s : ServerState} {d : Option (Addr × Player)}
    (hd : InvD s d) {p : Player} (h : BTargetOk s p) : DTargetOk s p.addr := by
  rcases h with h | ⟨h1, h2⟩
  · exact Or.inl h
  · refine Or.inr ⟨(hd.2.2.2.2.2 (p.addr, p) (alLookup_mem h1)).2.1, fun q hq => ?_⟩
    rw [h1] at hq
    have : p = q := by injection hq
    rw [← this]
    exact h2

/-- The broadcast loop raises nothing when every snapshot member is a
well-formed recipient (given a disconnect routine that raises nothing on
well-formed targets). -/
theorem broadcastGo_noErr {disc : ServerState → Addr → ServerState × Option Err}
    {fuel : Nat} (hdisc : ∀ s' a, Mpba s' < fuel → StepOk s' (disc s' a))
    (hdiscNE : ∀ s' a d, Mpba s' < fuel → InvD s' d → DTargetOk s' a →
      (disc s' a).2 = none)
    (data : Packet) (ig : List Addr) :
    ∀ (snap : List Player) (s : ServerState) (d : Option (Addr × Player)),
      Mpba s < fuel → InvD s d → (∀ p ∈ snap, BTargetOk s p) →
      (broadcastGo disc data ig s snap).2 = none := by
  intro snap
  induction snap with
  | nil => intro s d _ _ _; rw [broadcastGo_nil]
  | cons p rest ih =>
    intro s d hmp hd hsnap
    by_cases hskip : optMem (getAddress s p.addr) ig = true
    · rw [broadcastGo_cons_skip disc data ig s p rest hskip]
      exact ih s d hmp hd (fun q hq => hsnap q (List.mem_cons_of_mem _ hq))
    · have hskip2 : optMem (getAddress s p.addr) ig = false := by
        cases hb : optMem (getAddress s p.addr) ig
        · rfl
        · exact absurd hb hskip
      by_cases hbr : p.addr ∈ s.broken
      · rw [broadcastGo_cons_fail disc data ig s p rest hskip2 hbr]
        have hne := hdiscNE s p.addr d hmp hd
          (DTargetOk_of_BTargetOk hd (hsnap p (List.mem_cons_self _ _)))
        have hstep := hdisc s p.addr hmp
        cases hr : disc s p.addr with
        | mk s1 e =>
          rw [hr] at hne hstep
          cases e with
          | some err => exact absurd hne (by simp)
          | none =>
            have hm1 : Mpba s1 < fuel := lt_of_le_of_lt hstep.mpba_le hmp
            exact ih s1 d hm1 (hstep.inv_pres d hd)
              (fun q hq => BTargetOk_mono hstep hd (hsnap q (List.mem_cons_of_mem _ hq)))
      · rw [broadcastGo_cons_send disc data ig s p rest hskip2 hbr]
        have hstep := StepOk_sent s [(p.addr, data)]
        exact ih _ d hmp (hstep.inv_pres d hd)
          (fun q hq => BTargetOk_mono hstep hd (hsnap q (List.mem_cons_of_mem _ hq)))

/-- `_disconnect` raises nothing on a well-formed target, below the fuel
bound. -/
theorem disconnectF_noErr :
    ∀ (fuel : Nat) (s : ServerState) (c : Addr) (d : Option (Addr × Player)),
      Mpba s < fuel → InvD s d → DTargetOk s c →
      (disconnectF fuel s c).2 = none := by
  intro fuel
  induction fuel with
  | zero =>
    intro s c d h
    exact absurd h (Nat.not_lt_zero _)
  | succ fuel ih =>
    intro s c d hfuel hd htgt
    by_cases hc : c ∈ s.closed
    · rw [disconnectF_closed fuel s c hc]
    · have htgt2 : c ∈ s.connections ∧
          ∀ q, alLookup c s.players_by_address = some q →
            alLookup q.player_id s.players = some q := by
        rcases htgt with h | h
        · exact absurd h hc
        · exact h
      cases hp : alLookup c s.players_by_address with
      | none =>
        rw [disconnectF_noPlayer_conn fuel s c hc hp htgt2.1]
      | some player =>
        have hpid : alContains player.player_id s.players = true :=
          alContains_iff.mpr ⟨player, htgt2.2 player hp⟩
        rw [disconnectF_player_present fuel s c player hc hp htgt2.1 hpid]
        have hstep := StepOk_purged s c player hp htgt2.1 hpid
        have hmp : Mpba (purged s c player.player_id) < fuel := by
          have hlt : (alErase c s.players_by_address).length
              < s.players_by_address.length := length_alErase_lt hp
          unfold purged Mpba
          unfold Mpba at hfuel
          simp only
          omega
        have hd4 : InvD (purged s c player.player_id) d := hstep.inv_pres d hd
        have hne1 := broadcastGo_noErr (disconnectF_StepOk fuel) ih
          (Packet.despawn player.player_id) []
          (alValues (purged s c player.player_id).players)
          (purged s c player.player_id) d hmp hd4
          (fun q hq => BTargetOk_of_values hd4 hq)
        cases hr1 : broadcastGo (disconnectF fuel) (Packet.despawn player.player_id) []
            (purged s c player.player_id)
            (alValues (purged s c player.player_id).players) with
        | mk s5 e1 =>
          rw [hr1] at hne1
          cases e1 with
          | some err => exact absurd hne1 (by simp)
          | none =>
            have hb1 := broadcastGo_StepOk (disconnectF_StepOk fuel)
              (Packet.despawn player.player_id) []
              (alValues (purged s c player.player_id).players)
              (purged s c player.player_id) hmp
            rw [hr1] at hb1
            have hm5 : Mpba s5 < fuel := lt_of_le_of_lt hb1.mpba_le hmp
            have hd5 : InvD s5 d := hb1.inv_pres d hd4
            exact broadcastGo_noErr (disconnectF_StepOk fuel) ih
              (Packet.message 0 (quitMessage player.name)) []
              (alValues s5.players) s5 d hm5 hd5
              (fun q hq => BTargetOk_of_values hd5 hq)

/-! ## Top-level corollaries for `disconnect` and `broadcast` -/

theorem disconnect_StepOk (s : ServerState) (c : Addr) :
    StepOk s (disconnect s c) :=
  disconnectF_StepOk (Mpba s + 1) s c (Nat.lt_succ_self _)

theorem broadcast_StepOk (s : ServerState) (data : Packet)
    (ignore : Option (List Addr)) : StepOk s (broadcast s data ignore) :=
  broadcastGo_StepOk (disconnectF_StepOk (Mpba s + 1)) data _
    (alValues s.players) s (Nat.lt_succ_self _)

theorem disconnect_noErr {s : ServerState} {c : Addr}
    {d : Option (Addr × Player)} (hd : InvD s d) (htgt : DTargetOk s c) :
    (disconnect s c).2 = none :=
  disconnectF_noErr (Mpba s + 1) s c d (Nat.lt_succ_self _) hd htgt

theorem broadcast_noErr {s : ServerState} {d : Option (Addr × Player)}
    (hd : InvD s d) (data : Packet) (ignore : Option (List Addr)) :
    (broadcast s data ignore).2 = none :=
  broadcastGo_noErr (disconnectF_StepOk (Mpba s + 1))
    (fun s' a d' hm hd' ht => disconnectF_noErr (Mpba s + 1) s' a d' hm hd' ht)
    data _ (alValues s.players) s d (Nat.lt_succ_self _) hd
    (fun _ hq => BTargetOk_of_values hd hq)

/-! ## Invariant preservation of the registry operations -/

/-- When the dangling entry is gone from the address map, the parametrised
invariant collapses to the clean one. -/
theorem Inv_of_InvD_absent {s : ServerState} {a : Addr} {player : Player}
    (h : InvD s (some (a, player)))
    (ha : alLookup a s.players_by_address = none) : Inv s := by
  obtain ⟨n1, n2, n3, h4, h5, h6⟩ := h
  refine ⟨n1, n2, n3, h4, h5, fun f hf => ?_⟩
  obtain ⟨f1, f2, f3⟩ := h6 f hf
  refine ⟨f1, f2, ?_⟩
  rcases f3 with f3 | f3
  · exact Or.inl f3
  · exfalso
    have hfd : f = (a, player) := by
      injection f3.1 with hh
      exact hh.symm
    have : alLookup a s.players_by_address = some f.2 := by
      rw [← show f.1 = a from by rw [hfd]]
      exact alLookup_eq_some_of_mem n2 hf
    rw [ha] at this
    exact Option.noConfusion this

/-- `del self._players[player_id]` in `kick_player` leaves the registry in
the dangling-entry variant of the invariant. -/
theorem InvD_kick_del {s : ServerState} {pid : Nat} {player : Player}
    (h : Inv s) (hp : alLookup pid s.players = some player) :
    InvD { s with players := alErase pid s.players }
      (some (player.addr, player)) := by
  obtain ⟨n1, n2, n3, h4, h5, h6⟩ := h
  have hpid : player.player_id = pid := (h5 (pid, player) (alLookup_mem hp)).1
  refine ⟨NodupKeys_alErase _ _ n1, n2, n3, h4, ?_, ?_⟩
  · intro e he
    exact h5 e (mem_alErase he)
  · intro f hf
    obtain ⟨f1, f2, f3⟩ := h6 f hf
    refine ⟨f1, f2, ?_⟩
    rcases f3 with f3 | f3
    · by_cases hfp : f.2.player_id = pid
      · refine Or.inr ?_
        have hfpl : f.2 = player := by
          rw [hfp] at f3
          rw [hp] at f3
          injection f3.symm
        have hfe : f = (player.addr, player) := by
          have : f.1 = player.addr := by rw [← f1, hfpl]
          cases f
          simp_all
        rw [hfe]
        refine ⟨rfl, ?_⟩
        show alLookup player.player_id (alErase pid s.players) = none
        rw [hpid]
        exact alLookup_alErase_self pid s.players
      · refine Or.inl ?_
        show alLookup f.2.player_id (alErase pid s.players) = some f.2
        rw [alLookup_alErase_ne pid _ _ hfp]
        exact f3
    · exact absurd f3.1 (by simp)

theorem mem_alInsert {α β : Type} [DecidableEq α] {e : α × β} {k : α} {v : β}
    {l : List (α × β)} (h : e ∈ alInsert k v l) : e = (k, v) ∨ e ∈ l := by
  induction l with
  | nil =>
    unfold alInsert at h
    rcases List.mem_cons.mp h with h | h
    · exact Or.inl h
    · simp at h
  | cons f t ih =>
    unfold alInsert at h
    by_cases hf : f.1 = k
    · rw [if_pos hf] at h
      rcases List.mem_cons.mp h with h | h
      · exact Or.inl h
      · exact Or.inr (List.mem_cons_of_mem _ h)
    · rw [if_neg hf] at h
      rcases List.mem_cons.mp h with h | h
      · exact Or.inr (by rw [h]; exact List.mem_cons_self _ _)
      · rcases ih h with h | h
        · exact Or.inl h
        · exact Or.inr (List.mem_cons_of_mem _ h)

/-- The player object `add_player` constructs. -/
def newPlayer (s : ServerState) (c : Addr) (coords : List Int) (name : String)
    (pid : Nat) : Player :=
  { player_id := pid, addr := c, coords := coords, name := name
    user_type := if is_op s name then 0x64 else 0x00 }

/-- Registering a fresh player under a live, not-yet-admitted connection
preserves the invariant. -/
theorem Inv_insert {s : ServerState} (h : Inv s) {c : Addr} {pid : Nat}
    {player : Player} {counter : Nat}
    (hc : c ∈ s.connections) (hpba : alLookup c s.players_by_address = none)
    (hfresh : alContains pid s.players = false)
    (haddr : player.addr = c) (hid : player.player_id = pid) :
    Inv { s with player_id := counter,
                 players := alInsert pid player s.players,
                 players_by_address := alInsert c player s.players_by_address } := by
  obtain ⟨n1, n2, n3, h4, h5, h6⟩ := h
  have hnone : alLookup pid s.players = none := by
    cases hq : alLookup pid s.players with
    | none => rfl
    | some q =>
      rw [alContains_iff.mpr ⟨q, hq⟩] at hfresh
      exact Bool.noConfusion hfresh
  refine ⟨NodupKeys_alInsert _ _ _ n1, NodupKeys_alInsert _ _ _ n2, n3, h4, ?_, ?_⟩
  · intro e he
    rcases mem_alInsert he with he | he
    · rw [he]
      refine ⟨hid, ?_⟩
      show alLookup player.addr (alInsert c player s.players_by_address) = some player
      rw [haddr]
      exact alLookup_alInsert_self c player _
    · obtain ⟨e1, e2⟩ := h5 e he
      refine ⟨e1, ?_⟩
      have hea : e.2.addr ≠ c := by
        intro hh
        rw [hh, hpba] at e2
        exact Option.noConfusion e2
      show alLookup e.2.addr (alInsert c player s.players_by_address) = some e.2
      rw [alLookup_alInsert_ne c _ player _ hea]
      exact e2
  · intro f hf
    rcases mem_alInsert hf with hf | hf
    · rw [hf]
      refine ⟨haddr, by rw [show ((c, player) : Addr × Player).1 = c from rfl]; exact hc, ?_⟩
      refine Or.inl ?_
      show alLookup player.player_id (alInsert pid player s.players) = some player
      rw [hid]
      exact alLookup_alInsert_self pid player _
    · obtain ⟨f1, f2, f3⟩ := h6 f hf
      rcases f3 with f3 | f3
      · refine ⟨f1, f2, Or.inl ?_⟩
        have hfid : f.2.player_id ≠ pid := by
          intro hh
          rw [hh, hnone] at f3
          exact Option.noConfusion f3
        show alLookup f.2.player_id (alInsert pid player s.players) = some f.2
        rw [alLookup_alInsert_ne pid _ player _ hfid]
        exact f3
      · exact absurd f3.1 (by simp)

/-- Branch equations of `add_player`. -/
theorem add_player_reject_broken (s : ServerState) (c : Addr) (coords : List Int)
    (name : String)
    (hcond : ¬ (s.players.length < s.max_players ∨ is_op s name = true))
    (hbr : c ∈ s.broken) :
    add_player s c coords name = (s, none, some Err.ioError) := by
  unfold add_player
  rw [if_neg hcond, if_pos hbr]

theorem add_player_reject_sent (s : ServerState) (c : Addr) (coords : List Int)
    (name : String)
    (hcond : ¬ (s.players.length < s.max_players ∨ is_op s name = true))
    (hbr : c ∉ s.broken) :
    add_player s c coords name =
      ({ s with sent := s.sent ++ [(c, Packet.disconnectPlayer "Server full")] },
        none, none) := by
  unfold add_player
  rw [if_neg hcond, if_neg hbr]

theorem add_player_seq (s : ServerState) (c : Addr) (coords : List Int)
    (name : String)
    (hcond : s.players.length < s.max_players ∨ is_op s name = true)
    (hfree : alContains s.player_id s.players = false) :
    add_player s c coords name =
      ({ s with player_id := s.player_id + 1,
                players := alInsert s.player_id
                  (newPlayer s c coords name s.player_id) s.players,
                players_by_address := alInsert c
                  (newPlayer s c coords name s.player_id) s.players_by_address },
        some s.player_id, none) := by
  unfold add_player newPlayer
  rw [if_pos hcond]
  dsimp only
  rw [hfree]
  rfl

theorem add_player_scan (s : ServerState) (c : Addr) (coords : List Int)
    (name : String) (i : Nat)
    (hcond : s.players.length < s.max_players ∨ is_op s name = true)
    (hfull : alContains s.player_id s.players = true)
    (hfind : (List.range 256).find? (fun i => ¬ alContains i s.players) = some i) :
    add_player s c coords name =
      ({ s with player_id := i,
                players := alInsert i (newPlayer s c coords name i) s.players,
                players_by_address := alInsert c
                  (newPlayer s c coords name i) s.players_by_address },
        some i, none) := by
  unfold add_player newPlayer
  rw [if_pos hcond]
  dsimp only
  rw [hfull]
  rw [hfind]
  rfl

theorem add_player_exhaust (s : ServerState) (c : Addr) (coords : List Int)
    (name : String)
    (hcond : s.players.length < s.max_players ∨ is_op s name = true)
    (hfull : alContains s.player_id s.players = true)
    (hfind : (List.range 256).find? (fun i => ¬ alContains i s.players) = none) :
    add_player s c coords name = (s, none, some Err.valueError) := by
  unfold add_player
  rw [if_pos hcond]
  dsimp only
  rw [hfull]
  rw [hfind]
  rfl

theorem add_player_preserves_Inv (s : ServerState) (c : Addr) (coords : List Int)
    (name : String) (h : Inv s) (hc : c ∈ s.connections)
    (hpba : alLookup c s.players_by_address = none) :
    Inv (add_player s c coords name).1 := by
  by_cases hcond : s.players.length < s.max_players ∨ is_op s name = true
  · by_cases hfull : alContains s.player_id s.players = true
    · cases hfind : (List.range 256).find? (fun i => ¬ alContains i s.players) with
      | none =>
        rw [add_player_exhaust s c coords name hcond hfull hfind]
        exact h
      | some i =>
        rw [add_player_scan s c coords name i hcond hfull hfind]
        have hifree : alContains i s.players = false := by
          have := List.find?_some hfind
          simp at this
          rw [this]
        exact Inv_insert h hc hpba hifree rfl rfl
    · have hfree : alContains s.player_id s.players = false := by
        cases hb : alContains s.player_id s.players
        · rfl
        · exact absurd hb hfull
      rw [add_player_seq s c coords name hcond hfree]
      exact Inv_insert h hc hpba hfree rfl rfl
  · by_cases hbr : c ∈ s.broken
    · rw [add_player_reject_broken s c coords name hcond hbr]
      exact h
    · rw [add_player_reject_sent s c coords name hcond hbr]
      exact h

theorem disconnect_preserves_Inv (s : ServerState) (c : Addr) (h : Inv s) :
    Inv (disconnect s c).1 :=
  (disconnect_StepOk s c).inv_pres none h

/-- `kick_player` preserves the registry invariant on every exit path,
including the `KeyError` the final `_disconnect` raises after the kick has
already removed the id from the player map. -/
theorem kick_player_preserves_Inv (s : ServerState) (pid : Nat) (reason : String)
    (h : Inv s) : Inv (kick_player s pid reason).1 := by
  unfold kick_player
  split
  · exact h
  · rename_i player hp
    split
    · exact h
    · rename_i hbr
      dsimp only
      have hpid2 : player.player_id = pid :=
        (h.2.2.2.2.1 (pid, player) (alLookup_mem hp)).1
      have hpalk : alLookup player.addr s.players_by_address = some player :=
        (h.2.2.2.2.1 (pid, player) (alLookup_mem hp)).2
      have hpconn : player.addr ∈ s.connections :=
        (h.2.2.2.2.2 (player.addr, player) (alLookup_mem hpalk)).2.1
      have hpopen : player.addr ∉ s.closed := h.2.2.2.1 player.addr hpconn
      have hd2 : InvD
          { s with sent := s.sent ++ [(player.addr, Packet.disconnectPlayer reason)],
                   players := alErase pid s.players }
          (some (player.addr, player)) :=
        InvD_kick_del
          (s := { s with sent := s.sent ++ [(player.addr, Packet.disconnectPlayer reason)] })
          h hp
      cases hr3 : broadcast
          { s with sent := s.sent ++ [(player.addr, Packet.disconnectPlayer reason)],
                   players := alErase pid s.players }
          (Packet.message 0 (kickMessage player.name reason)) none with
      | mk s3 e3 =>
        have hne := broadcast_noErr hd2
          (Packet.message 0 (kickMessage player.name reason)) none
        rw [hr3] at hne
        have hstep := broadcast_StepOk
          { s with sent := s.sent ++ [(player.addr, Packet.disconnectPlayer reason)],
                   players := alErase pid s.players }
          (Packet.message 0 (kickMessage player.name reason)) none
        rw [hr3] at hstep
        dsimp only at hne
        cases e3 with
        | some err => exact absurd hne (by simp)
        | none =>
          show Inv (disconnect s3 player.addr).1
          have hd3 : InvD s3 (some (player.addr, player)) :=
            hstep.inv_pres _ hd2
          unfold disconnect
          by_cases hcl : player.addr ∈ s3.closed
          · rw [disconnectF_closed (Mpba s3) s3 player.addr hcl]
            have hnew := hstep.new_closed_clean _ hd2 player.addr hpopen hcl
            exact Inv_of_InvD_absent hd3 hnew
          · have hlk3 : alLookup player.addr s3.players_by_address = some player := by
              rcases hstep.pba_stable player.addr player hpalk with h' | h'
              · exact h'
              · exact absurd h' hcl
            have hconn3 : player.addr ∈ s3.connections :=
              (hd3.2.2.2.2.2 (player.addr, player) (alLookup_mem hlk3)).2.1
            have hgone : alContains player.player_id s3.players = false := by
              cases hq : alLookup player.player_id s3.players with
              | none =>
                unfold alContains
                rw [hq]
                rfl
              | some q =>
                have := hstep.players_sub player.player_id q hq
                rw [hpid2] at this
                rw [show alLookup pid
                    ({ s with
                        sent := s.sent ++ [(player.addr, Packet.disconnectPlayer reason)],
                        players := alErase pid s.players } : ServerState).players = none
                  from alLookup_alErase_self pid s.players] at this
                exact absurd this (by simp)
            rw [disconnectF_player_gone (Mpba s3) s3 player.addr player hcl hlk3
              hconn3 hgone]
            have hstep4 := StepOk_playerGone s3 player.addr player hlk3 hconn3 hgone
            have hd4 := hstep4.inv_pres _ hd3
            exact Inv_of_InvD_absent hd4 (alLookup_alErase_self player.addr _)

/-! ## Arbitrary interleavings of the registry operations (claim C1) -/

/-- The registry operations of the server, as invoked by the packet
handler and maintenance threads: accepting a connection
(`_connection_thread`, server.py lines 154-159), admitting a player,
kicking a player, and the disconnect protocol. -/
inductive Op where
  | connect (a : Addr)
  | add (a : Addr) (coords : List Int) (name : String)
  | kick (pid : Nat) (reason : String)
  | disc (a : Addr)
  deriving Repr, DecidableEq

/-- One operation applied to the server state (exceptions it raises leave
the state exactly as the raise point left it, as in Python). -/
def stepOp (s : ServerState) : Op → ServerState
  | Op.connect a =>
    { s with connections :=
        if a ∈ s.connections then s.connections else s.connections ++ [a] }
  | Op.add a coords name => (add_player s a coords name).1
  | Op.kick pid reason => (kick_player s pid reason).1
  | Op.disc a => (disconnect s a).1

/-- Environment legality of one operation: accepted connections carry a
fresh address (TCP gives every accepted socket a distinct peer address),
and `add_player` is invoked by the login handler for a connection that is
live and not yet admitted.  Kicks and disconnects are unrestricted. -/
def legalOp (s : ServerState) : Op → Bool
  | Op.connect a => !(s.connections.contains a) && !(s.closed.contains a)
  | Op.add a _ _ =>
    s.connections.contains a && (alLookup a s.players_by_address).isNone
  | Op.kick _ _ => true
  | Op.disc _ => true

def runOps (s : ServerState) : List Op → ServerState
  | [] => s
  | op :: rest => runOps (stepOp s op) rest

def legalFrom (s : ServerState) : List Op → Bool
  | [] => true
  | op :: rest => legalOp s op && legalFrom (stepOp s op) rest

/-- The state right after `ClassicServer.__init__` (class attributes:
empty maps, `_player_id = 0`), with the configured capacity and operator
list, and the environment's set of broken transports. -/
def initState (maxPlayers : Nat) (opNames : List String) (broken : List Addr) :
    ServerState :=
  { connections := [], players := [], players_by_address := [], player_id := 0,
    max_players := maxPlayers, op_players := opNames, closed := [],
    broken := broken, sent := [] }

theorem Inv_initState (maxPlayers : Nat) (opNames : List String)
    (broken : List Addr) : Inv (initState maxPlayers opNames broken) := by
  refine ⟨?_, ?_, ?_, ?_, ?_, ?_⟩ <;> simp [initState, NodupKeys]

theorem stepOp_preserves_Inv (s : ServerState) (op : Op) (h : Inv s)
    (hl : legalOp s op = true) : Inv (stepOp s op) := by
  cases op with
  | connect a =>
    unfold legalOp at hl
    rw [Bool.and_eq_true] at hl
    have hfc : a ∉ s.connections := by
      have := hl.1
      simp at this
      exact this
    have hcl : a ∉ s.closed := by
      have := hl.2
      simp at this
      exact this
    show Inv { s with connections :=
      if a ∈ s.connections then s.connections else s.connections ++ [a] }
    rw [if_neg hfc]
    obtain ⟨n1, n2, n3, h4, h5, h6⟩ := h
    refine ⟨n1, n2, ?_, ?_, h5, ?_⟩
    · rw [List.nodup_append]
      exact ⟨n3, List.nodup_singleton a, by
        intro x hx hx2
        rw [List.mem_singleton] at hx2
        rw [hx2] at hx
        exact hfc hx⟩
    · intro b hb
      rcases List.mem_append.mp hb with hb | hb
      · exact h4 b hb
      · rw [List.mem_singleton] at hb
        rw [hb]
        exact hcl
    · intro f hf
      obtain ⟨f1, f2, f3⟩ := h6 f hf
      exact ⟨f1, List.mem_append_left _ f2, f3⟩
  | add a coords name =>
    unfold legalOp at hl
    rw [Bool.and_eq_true] at hl
    have hca : a ∈ s.connections := by
      have := hl.1
      simp at this
      exact this
    have hpn : alLookup a s.players_by_address = none := by
      have := hl.2
      rw [Option.isNone_iff_eq_none] at this
      exact this
    exact add_player_preserves_Inv s a coords name h hca hpn
  | kick pid reason => exact kick_player_preserves_Inv s pid reason h
  | disc a => exact disconnect_preserves_Inv s a h

theorem runOps_preserves_Inv :
    ∀ (ops : List Op) (s : ServerState), Inv s → legalFrom s ops = true →
      Inv (runOps s ops) := by
  intro ops
  induction ops with
  | nil => intro s h _; exact h
  | cons op rest ih =>
    intro s h hl
    unfold legalFrom at hl
    rw [Bool.and_eq_true] at hl
    exact ih (stepOp s op) (stepOp_preserves_Inv s op h hl.1) hl.2

/-- Every registered ID is below the sequential counter.  This holds in
every reachable state (`runOps_preserves_IdBound`), so the branch of
`add_player` that linear-scans for a free slot — and with it the
`ValueError("No more ID's left")` — can never execute: the counter's slot
is always free. -/
def IdBound (s : ServerState) : Prop :=
  ∀ k ∈ s.players.map Prod.fst, k < s.player_id

theorem counter_slot_free_of_IdBound {s : ServerState} (h : IdBound s) :
    alContains s.player_id s.players = false := by
  cases hb : alContains s.player_id s.players
  · rfl
  · have := h s.player_id (alContains_key_iff.mp hb)
    omega

theorem kick_player_players_sub (s : ServerState) (pid : Nat) (reason : String) :
    (∀ i q, alLookup i (kick_player s pid reason).1.players = some q →
      alLookup i s.players = some q) ∧
    (kick_player s pid reason).1.player_id = s.player_id := by
  unfold kick_player
  split
  · exact ⟨fun _ _ hq => hq, rfl⟩
  · rename_i player hp
    split
    · exact ⟨fun _ _ hq => hq, rfl⟩
    · rename_i hbr
      dsimp only
      cases hr3 : broadcast
          { s with sent := s.sent ++ [(player.addr, Packet.disconnectPlayer reason)],
                   players := alErase pid s.players }
          (Packet.message 0 (kickMessage player.name reason)) none with
      | mk s3 e3 =>
        have hstep := broadcast_StepOk
          { s with sent := s.sent ++ [(player.addr, Packet.disconnectPlayer reason)],
                   players := alErase pid s.players }
          (Packet.message 0 (kickMessage player.name reason)) none
        rw [hr3] at hstep
        cases e3 with
        | some err =>
          refine ⟨fun i q hq => ?_, hstep.player_id_eq⟩
          exact alLookup_alErase (hstep.players_sub i q hq)
        | none =>
          show (∀ i q, alLookup i (disconnect s3 player.addr).1.players = some q →
              alLookup i s.players = some q) ∧
            (disconnect s3 player.addr).1.player_id = s.player_id
          have hstep2 := disconnect_StepOk s3 player.addr
          constructor
          · intro i q hq
            exact alLookup_alErase
              (hstep.players_sub i q (hstep2.players_sub i q hq))
          · rw [hstep2.player_id_eq, hstep.player_id_eq]

theorem stepOp_preserves_IdBound (s : ServerState) (op : Op) (h : IdBound s) :
    IdBound (stepOp s op) := by
  cases op with
  | connect a => exact h
  | add a coords name =>
    show IdBound (add_player s a coords name).1
    by_cases hcond : s.players.length < s.max_players ∨ is_op s name = true
    · have hfree := counter_slot_free_of_IdBound h
      rw [add_player_seq s a coords name hcond hfree]
      intro k hk
      show k < s.player_id + 1
      rw [keys_alInsert_not_mem s.player_id _ s.players (by
        intro hmem
        have := h s.player_id hmem
        omega)] at hk
      rcases List.mem_append.mp hk with hk | hk
      · have := h k hk
        omega
      · rw [List.mem_singleton] at hk
        omega
    · by_cases hbr : a ∈ s.broken
      · rw [add_player_reject_broken s a coords name hcond hbr]
        exact h
      · rw [add_player_reject_sent s a coords name hcond hbr]
        exact h
  | kick pid reason =>
    obtain ⟨hsub, hid⟩ := kick_player_players_sub s pid reason
    intro k hk
    show k < (kick_player s pid reason).1.player_id
    rw [hid]
    rcases alContains_iff.mp (alContains_key_iff.mpr hk) with ⟨q, hq⟩
    have := hsub k q hq
    exact h k (alContains_key_iff.mp (alContains_iff.mpr ⟨q, this⟩))
  | disc a =>
    have hstep := disconnect_StepOk s a
    intro k hk
    show k < (disconnect s a).1.player_id
    rw [hstep.player_id_eq]
    rcases alContains_iff.mp (alContains_key_iff.mpr hk) with ⟨q, hq⟩
    have := hstep.players_sub k q hq
    exact h k (alContains_key_iff.mp (alContains_iff.mpr ⟨q, this⟩))

/-- In every state reachable by the registry operations the sequential
counter's slot is free: the ID-reuse scan of `add_player` is dead code. -/
theorem runOps_preserves_IdBound :
    ∀ (ops : List Op) (s : ServerState), IdBound s →
      alContains (runOps s ops).player_id (runOps s ops).players = false := by
  have hrun : ∀ (ops : List Op) (s : ServerState), IdBound s →
      IdBound (runOps s ops) := by
    intro ops
    induction ops with
    | nil => intro s h; exact h
    | cons op rest ih =>
      intro s h
      exact ih (stepOp s op) (stepOp_preserves_IdBound s op h)
  intro ops s h
  exact counter_slot_free_of_IdBound (hrun ops s h)

/-- C1: after every legal sequence of connection accepts, `add_player`,
`kick_player` and `_disconnect` operations starting from a fresh server,
the three registry maps stay mutually consistent: every address key in
`_players_by_address` maps to a player that is also present under its ID
in `_players` and whose address is a live key of `_connections`; no
address appears in two players and no player ID is held by two players at
once.  (Legality: accepted connections carry fresh addresses, and a login
is only processed for a live, not-yet-admitted connection.) -/
theorem C1_registry_consistency (maxPlayers : Nat) (opNames : List String)
    (broken : List Addr) (ops : List Op)
    (hl : legalFrom (initState maxPlayers opNames broken) ops = true) :
    RegistryConsistent (runOps (initState maxPlayers opNames broken) ops) :=
  RegistryConsistent_of_Inv
    (runOps_preserves_Inv ops _ (Inv_initState maxPlayers opNames broken) hl)

/-- A concrete interleaving exercising every operation: three logins, one
ungraceful disconnect, one kick. -/
def c1trace : List Op :=
  [Op.connect 1, Op.add 1 [] "Alice", Op.connect 2, Op.add 2 [] "Bob",
   Op.disc 1, Op.connect 3, Op.add 3 [] "Carol", Op.kick 1 "spam"]

theorem C1_witness :
    legalFrom (initState 10 ["Alice"] []) c1trace = true ∧
      RegistryConsistent (runOps (initState 10 ["Alice"] []) c1trace) :=
  ⟨by decide, C1_registry_consistency 10 ["Alice"] [] c1trace (by decide)⟩

/-- Any first disconnect of a not-yet-closed session closes it. -/
theorem disconnect_closes (s : ServerState) (c : Addr) (hc : c ∉ s.closed) :
    c ∈ (disconnect s c).1.closed := by
  unfold disconnect
  cases hp : alLookup c s.players_by_address with
  | none =>
    by_cases hcon : c ∈ s.connections
    · rw [disconnectF_noPlayer_conn (Mpba s) s c hc hp hcon]
      exact List.mem_cons_self _ _
    · rw [disconnectF_noPlayer_noConn (Mpba s) s c hc hp hcon]
      exact List.mem_cons_self _ _
  | some player =>
    by_cases hcon : c ∈ s.connections
    · cases hpid : alContains player.player_id s.players with
      | false =>
        rw [disconnectF_player_gone (Mpba s) s c player hc hp hcon hpid]
        exact List.mem_cons_self _ _
      | true =>
        rw [disconnectF_player_present (Mpba s) s c player hc hp hcon hpid]
        have hmp : Mpba (purged s c player.player_id) < Mpba s := by
          have hlt : (alErase c s.players_by_address).length
              < s.players_by_address.length := length_alErase_lt hp
          unfold purged Mpba
          simp only
          exact hlt
        have hin : c ∈ (purged s c player.player_id).closed :=
          List.mem_cons_self _ _
        have hb1 := broadcastGo_StepOk (disconnectF_StepOk (Mpba s))
          (Packet.despawn player.player_id) []
          (alValues (purged s c player.player_id).players)
          (purged s c player.player_id) hmp
        cases hr1 : broadcastGo (disconnectF (Mpba s)) (Packet.despawn player.player_id)
            [] (purged s c player.player_id)
            (alValues (purged s c player.player_id).players) with
        | mk s5 e1 =>
          rw [hr1] at hb1
          cases e1 with
          | some err => exact hb1.closed_mono c hin
          | none =>
            have hm5 : Mpba s5 < Mpba s := lt_of_le_of_lt hb1.mpba_le hmp
            have hb2 := broadcastGo_StepOk (disconnectF_StepOk (Mpba s))
              (Packet.message 0 (quitMessage player.name)) []
              (alValues s5.players) s5 hm5
            exact hb2.closed_mono c (hb1.closed_mono c hin)
    · rw [disconnectF_player_noConn (Mpba s) s c player hc hp hcon]
      exact List.mem_cons_self _ _

/-- C2: calling `_disconnect` a second time on a session the first call
just disconnected is a no-op: the state (registries, connection table,
send log) is unchanged, so nothing further is removed and neither the
despawn packet nor the quit chat message is broadcast again, and no
exception is raised. -/
theorem C2_disconnect_idempotent (s : ServerState) (c : Addr) (hc : c ∉ s.closed) :
    disconnect (disconnect s c).1 c = ((disconnect s c).1, none) := by
  have hcl : c ∈ (disconnect s c).1.closed := disconnect_closes s c hc
  unfold disconnect
  exact disconnectF_closed _ _ _ hcl

/-- A server with one admitted player, used as concrete input below. -/
def oneAliceState : ServerState :=
  { connections := [7], players := [(0, ⟨0, 7, [], "Alice", 0⟩)],
    players_by_address := [(7, ⟨0, 7, [], "Alice", 0⟩)],
    player_id := 1, max_players := 5, op_players := [], closed := [],
    broken := [], sent := [] }

theorem C2_witness :
    (7 : Addr) ∉ oneAliceState.closed ∧
      disconnect (disconnect oneAliceState 7).1 7 =
        ((disconnect oneAliceState 7).1, none) :=
  ⟨by decide, C2_disconnect_idempotent oneAliceState 7 (by decide)⟩

/-- C3: `add_player` at or above capacity with a non-operator name creates
no player and returns no id: the state is unchanged except that the client
is sent a `DisconnectPlayerPacket` with reason `"Server full"`; with an
operator name the player is admitted regardless of current occupancy
(the sequential counter's slot being free, as it is in every reachable
state), with permission `0x64`. -/
theorem C3_capacity_check (s : ServerState) (c : Addr) (coords : List Int)
    (name : String) :
    (s.max_players ≤ s.players.length → is_op s name = false → c ∉ s.broken →
      add_player s c coords name =
        ({ s with sent := s.sent ++ [(c, Packet.disconnectPlayer "Server full")] },
          none, none)) ∧
    (is_op s name = true → alContains s.player_id s.players = false →
      add_player s c coords name =
        ({ s with player_id := s.player_id + 1,
                  players := alInsert s.player_id
                    (newPlayer s c coords name s.player_id) s.players,
                  players_by_address := alInsert c
                    (newPlayer s c coords name s.player_id) s.players_by_address },
          some s.player_id, none) ∧
        (newPlayer s c coords name s.player_id).user_type = 0x64) := by
  constructor
  · intro hcap hop hbr
    refine add_player_reject_sent s c coords name ?_ hbr
    intro hcond
    rcases hcond with hcond | hcond
    · omega
    · rw [hop] at hcond
      exact Bool.noConfusion hcond
  · intro hop hfree
    refine ⟨add_player_seq s c coords name (Or.inr hop) hfree, ?_⟩
    unfold newPlayer
    rw [if_pos hop]

/-- A full two-slot server (no operators) and one op-listed server, the
concrete inputs for the two halves of C3. -/
def fullTwoState : ServerState :=
  { connections := [1, 2, 3],
    players := [(0, ⟨0, 1, [], "A", 0⟩), (1, ⟨1, 2, [], "B", 0⟩)],
    players_by_address := [(1, ⟨0, 1, [], "A", 0⟩), (2, ⟨1, 2, [], "B", 0⟩)],
    player_id := 2, max_players := 2, op_players := ["Root"], closed := [],
    broken := [], sent := [] }

theorem C3_witness :
    (add_player fullTwoState 3 [] "Carl" =
      ({ fullTwoState with
          sent := [(3, Packet.disconnectPlayer "Server full")] }, none, none)) ∧
    (add_player fullTwoState 3 [] "Root").2.1 = some 2 :=
  ⟨by
    have h := (C3_capacity_check fullTwoState 3 [] "Carl").1
      (by decide) (by decide) (by decide)
    simpa using h,
   by
    have h := ((C3_capacity_check fullTwoState 3 [] "Root").2
      (by decide) (by decide)).1
    rw [h]
    rfl⟩

/-- A server whose 256 player IDs 0..255 are all occupied (as after 256
operator logins on a fresh server: ids are handed out sequentially and the
counter stands at 256). -/
def full256State : ServerState :=
  { connections := List.range 257,
    players := (List.range 256).map (fun i => (i, ⟨i, i, [], "Op", 0x64⟩)),
    players_by_address := (List.range 256).map (fun i => (i, ⟨i, i, [], "Op", 0x64⟩)),
    player_id := 256, max_players := 255, op_players := ["Op"], closed := [],
    broken := [], sent := [] }

set_option maxRecDepth 4096 in
/-- C4 (code bug): with every ID in [0,255] occupied and the sequential
counter at 256 — the state 256 operator logins produce — `add_player` does
not raise `ValueError`: the counter's slot (256) is free, so the
sequential branch assigns ID 256, outside [0,255].  The linear scan and
its `ValueError` only fire when the counter's own slot is occupied, which
sequential allocation never produces: the claimed hard failure is
unreachable, and IDs silently grow past 255.  (With the counter forced
into an occupied slot, the scan-exhaustion `ValueError` does fire, as the
second conjunct shows.) -/
theorem C4_exhaustion_assigns_out_of_range :
    ((∀ i, i < 256 → alContains i full256State.players = true) ∧
      (add_player full256State 256 [] "Op").2.1 = some 256 ∧
      (add_player full256State 256 [] "Op").2.2 = none) ∧
    (add_player { full256State with player_id := 0 } 256 [] "Op").2.2 =
      some Err.valueError := by
  refine ⟨⟨by decide, by decide, by decide⟩, by decide⟩

/-- A fresh server that has accepted one connection (address 7) on which
the first login arrives. -/
def freshConnState : ServerState :=
  { connections := [7], players := [], players_by_address := [], player_id := 0,
    max_players := 16, op_players := [], closed := [], broken := [], sent := [] }

/-- C5 (code bug): on a fresh server (`_player_id = 0`, no players) the
first admitted player is assigned player ID 0 — the very ID the server
itself uses as the originator of system chat messages — not ID 1 as the
spec's reserved-slot design requires. -/
theorem C5_first_player_gets_id_zero :
    freshConnState.players = [] ∧ freshConnState.player_id = 0 ∧
      (add_player freshConnState 7 [] "Alice").2.1 = some 0 := by
  refine ⟨rfl, rfl, by decide⟩

/-- C6 (code bug): `kick_player` on a registered player does send the
disconnect notification, remove the player from the ID map and broadcast
the kick message, but the final `_disconnect` raises `KeyError` (it tries
`del self._players[player.player_id]` after `kick_player` already deleted
that id), so the call does not complete without raising and the despawn
packet and quit chat message are never broadcast.  On the one-player
server the whole observable effect is: player gone from all maps,
connection closed, and a send log holding only the kick notification. -/
theorem C6_kick_raises_keyError :
    kick_player oneAliceState 0 "testing" =
      ({ connections := [], players := [], players_by_address := [],
         player_id := 1, max_players := 5, op_players := [], closed := [7],
         broken := [], sent := [(7, Packet.disconnectPlayer "testing")] },
        some Err.keyError) := by
  decide

/-- C8: `load_world` never propagates a failure: a missing save file, a
read error, and a decode failure each install a freshly generated default
world, and only a successful decode installs the decoded world. -/
theorem C8_load_world_never_fails (dec : List Nat → Option WorldV) :
    (∀ bytes w, dec bytes = some w → load_world dec (FileRead.content bytes) = w) ∧
    (∀ bytes, dec bytes = none →
      load_world dec (FileRead.content bytes) = WorldV.defaultWorld) ∧
    load_world dec FileRead.notFound = WorldV.defaultWorld ∧
    load_world dec FileRead.readError = WorldV.defaultWorld := by
  refine ⟨?_, ?_, rfl, rfl⟩
  · intro bytes w h
    show (match dec bytes with
          | some w => w
          | none => WorldV.defaultWorld) = w
    rw [h]
  · intro bytes h
    show (match dec bytes with
          | some w => w
          | none => WorldV.defaultWorld) = WorldV.defaultWorld
    rw [h]

/-- A decoder accepting exactly the save `[1]`. -/
def decOne : List Nat → Option WorldV :=
  fun b => if b = [1] then some (WorldV.decoded b) else none

theorem C8_witness :
    load_world decOne (FileRead.content [1]) = WorldV.decoded [1] ∧
      load_world decOne (FileRead.content [2]) = WorldV.defaultWorld ∧
      load_world decOne FileRead.notFound = WorldV.defaultWorld ∧
      load_world decOne FileRead.readError = WorldV.defaultWorld :=
  ⟨(C8_load_world_never_fails decOne).1 [1] (WorldV.decoded [1]) (by decide),
   (C8_load_world_never_fails decOne).2.1 [2] (by decide),
   (C8_load_world_never_fails decOne).2.2.1,
   (C8_load_world_never_fails decOne).2.2.2⟩

/-- C10: every salt `generate_salt` can store is exactly 16 characters,
each drawn from the base-62 alphabet of ASCII letters and digits (hence
alphanumeric, needing no URL escaping). -/
theorem C10_salt_shape (rand : Nat → Fin base_62.length) :
    (generate_salt rand).length = 16 ∧
      (generate_salt rand).data.all
        (fun ch => base_62.contains ch && ch.isAlphanum) = true := by
  constructor
  · show (List.map (fun i => base_62.get (rand i)) (List.range 16)).length = 16
    rw [List.length_map, List.length_range]
  · rw [List.all_eq_true]
    intro ch hch
    have hch2 : ch ∈ List.map (fun i => base_62.get (rand i)) (List.range 16) := hch
    rcases List.mem_map.mp hch2 with ⟨i, _, hv⟩
    have hmem : ch ∈ base_62 := by
      rw [← hv]
      exact base_62.get_mem (rand i).1 (rand i).2
    rw [Bool.and_eq_true]
    constructor
    · exact List.elem_iff.mpr hmem
    · have hall : base_62.all Char.isAlphanum = true := by decide
      exact List.all_eq_true.mp hall ch hmem

/-! ## Failure-free broadcasts send to exactly the non-ignored snapshot -/

/-- The `(address, packet)` pairs a failure-free run of the broadcast loop
appends to the send log: one per snapshot member whose recorded address is
not in the ignore list. -/
def pureSends (s : ServerState) (data : Packet) (ig : List Addr)
    (snap : List Player) : List (Addr × Packet) :=
  (snap.filter (fun q => !optMem (getAddress s q.addr) ig)).map
    (fun q => (q.addr, data))

theorem pureSends_nil (s : ServerState) (data : Packet) (ig : List Addr) :
    pureSends s data ig [] = [] := rfl

theorem pureSends_cons_skip (s : ServerState) (data : Packet) (ig : List Addr)
    (p : Player) (rest : List Player)
    (h : optMem (getAddress s p.addr) ig = true) :
    pureSends s data ig (p :: rest) = pureSends s data ig rest := by
  unfold pureSends
  rw [List.filter_cons, if_neg (by rw [h]; simp)]

theorem pureSends_cons_send (s : ServerState) (data : Packet) (ig : List Addr)
    (p : Player) (rest : List Player)
    (h : optMem (getAddress s p.addr) ig = false) :
    pureSends s data ig (p :: rest) =
      (p.addr, data) :: pureSends s data ig rest := by
  unfold pureSends
  rw [List.filter_cons, if_pos (by rw [h]; simp)]
  rw [List.map_cons]

/-- When no snapshot member's transport is broken, the broadcast loop
raises nothing, changes no registry state, and appends exactly the sends
to the non-ignored members, in snapshot order. -/
theorem broadcastGo_pure (disc : ServerState → Addr → ServerState × Option Err)
    (data : Packet) (ig : List Addr) :
    ∀ (snap : List Player) (s : ServerState),
      (∀ q ∈ snap, q.addr ∉ s.broken) →
      broadcastGo disc data ig s snap =
        ({ s with sent := s.sent ++ pureSends s data ig snap }, none) := by
  intro snap
  induction snap with
  | nil =>
    intro s _
    rw [broadcastGo_nil, pureSends_nil]
    rw [List.append_nil]
  | cons p rest ih =>
    intro s hbr
    by_cases hskip : optMem (getAddress s p.addr) ig = true
    · rw [broadcastGo_cons_skip disc data ig s p rest hskip,
        pureSends_cons_skip s data ig p rest hskip]
      exact ih s (fun q hq => hbr q (List.mem_cons_of_mem _ hq))
    · have hskip2 : optMem (getAddress s p.addr) ig = false := by
        cases hb : optMem (getAddress s p.addr) ig
        · rfl
        · exact absurd hb hskip
      rw [broadcastGo_cons_send disc data ig s p rest hskip2
        (hbr p (List.mem_cons_self _ _)),
        pureSends_cons_send s data ig p rest hskip2]
      have hrec := ih { s with sent := s.sent ++ [(p.addr, data)] }
        (fun q hq => hbr q (List.mem_cons_of_mem _ hq))
      rw [hrec]
      have hps : pureSends { s with sent := s.sent ++ [(p.addr, data)] } data ig rest
          = pureSends s data ig rest := rfl
      rw [hps]
      rw [show ({ s with sent := s.sent ++ [(p.addr, data)] } :
          ServerState).sent = s.sent ++ [(p.addr, data)] from rfl]
      rw [List.append_assoc]
      rfl

/-- C9: calling `broadcast` with the ignore argument omitted (`None`)
behaves exactly as calling it with an empty ignore list — the two calls
are one and the same state transition — and (transports unbroken) every
registered player's session is sent the data. -/
theorem C9_broadcast_default_ignore (s : ServerState) (data : Packet) :
    broadcast s data none = broadcast s data (some []) ∧
    ((∀ q ∈ alValues s.players, q.addr ∉ s.broken) →
      (broadcast s data none).1.sent =
        s.sent ++ (alValues s.players).map (fun q => (q.addr, data))) := by
  constructor
  · rfl
  · intro hbr
    unfold broadcast
    rw [broadcastGo_pure (disconnectF (Mpba s + 1)) data [] (alValues s.players) s hbr]
    have hall : pureSends s data [] (alValues s.players) =
        (alValues s.players).map (fun q => (q.addr, data)) := by
      unfold pureSends
      rw [show (alValues s.players).filter
            (fun q => !optMem (getAddress s q.addr) [])
          = (alValues s.players).filter (fun _ => true) from
        List.filter_congr (fun q _ => by rw [optMem_nil]; rfl)]
      rw [List.filter_true]
    rw [hall]

theorem C9_witness :
    broadcast oneAliceState Packet.ping none =
        broadcast oneAliceState Packet.ping (some []) ∧
      (broadcast oneAliceState Packet.ping none).1.sent = [(7, Packet.ping)] :=
  ⟨(C9_broadcast_default_ignore oneAliceState Packet.ping).1,
   by
    have h := (C9_broadcast_default_ignore oneAliceState Packet.ping).2 (by decide)
    rw [h]
    rfl⟩

/-! ## Failure isolation of broadcast (claim C7) -/

theorem contains_eq_false_of_not_mem {a : Addr} {l : List Addr} (h : a ∉ l) :
    l.contains a = false := by
  cases hb : l.contains a
  · rfl
  · exact absurd (List.elem_iff.mp hb) h

/-- Under the invariant the player values of the ID map are pairwise
distinct. -/
theorem values_nodup {s : ServerState} {d : Option (Addr × Player)}
    (h : InvD s d) : (alValues s.players).Nodup := by
  obtain ⟨n1, _, _, _, h5, _⟩ := h
  unfold alValues
  refine List.Nodup.map_on ?_ ?_
  · intro e he f hf hef
    have he1 : e.2.player_id = e.1 := (h5 e he).1
    have hf1 : f.2.player_id = f.1 := (h5 f hf).1
    have hkey : e.1 = f.1 := by rw [← he1, ← hf1, hef]
    cases e; cases f
    simp_all
  · exact (List.Nodup.of_map Prod.fst) n1

/-- Under the invariant, registered players are determined by their
address. -/
theorem values_addr_inj {s : ServerState} {d : Option (Addr × Player)}
    (h : InvD s d) {q1 q2 : Player} (h1 : q1 ∈ alValues s.players)
    (h2 : q2 ∈ alValues s.players) (ha : q1.addr = q2.addr) : q1 = q2 := by
  have hl1 := (values_synced h h1).1
  have hl2 := (values_synced h h2).1
  rw [ha] at hl1
  rw [hl1] at hl2
  injection hl2

/-- Splitting a broadcast over a concatenated snapshot. -/
theorem broadcastGo_append (disc : ServerState → Addr → ServerState × Option Err)
    (data : Packet) (ig : List Addr) :
    ∀ (A B : List Player) (s : ServerState),
      broadcastGo disc data ig s (A ++ B) =
        match broadcastGo disc data ig s A with
        | (s1, some e) => (s1, some e)
        | (s1, none) => broadcastGo disc data ig s1 B := by
  intro A
  induction A with
  | nil =>
    intro B s
    rw [List.nil_append, broadcastGo_nil]
  | cons p A' ih =>
    intro B s
    rw [List.cons_append]
    by_cases hskip : optMem (getAddress s p.addr) ig = true
    · rw [broadcastGo_cons_skip disc data ig s p (A' ++ B) hskip,
        broadcastGo_cons_skip disc data ig s p A' hskip]
      exact ih B s
    · have hskip2 : optMem (getAddress s p.addr) ig = false := by
        cases hb : optMem (getAddress s p.addr) ig
        · rfl
        · exact absurd hb hskip
      by_cases hbr : p.addr ∈ s.broken
      · rw [broadcastGo_cons_fail disc data ig s p (A' ++ B) hskip2 hbr,
          broadcastGo_cons_fail disc data ig s p A' hskip2 hbr]
        cases hr : disc s p.addr with
        | mk s1 e =>
          cases e with
          | some err => rfl
          | none => exact ih B s1
      · rw [broadcastGo_cons_send disc data ig s p (A' ++ B) hskip2 hbr,
          broadcastGo_cons_send disc data ig s p A' hskip2 hbr]
        exact ih B _

theorem mem_pureSends {s : ServerState} {data : Packet} {ig : List Addr}
    {snap : List Player} {q : Player} (hq : q ∈ snap)
    (h : optMem (getAddress s q.addr) ig = false) :
    (q.addr, data) ∈ pureSends s data ig snap := by
  unfold pureSends
  refine List.mem_map.mpr ⟨q, ?_, rfl⟩
  refine List.mem_filter.mpr ⟨hq, by rw [h]; rfl⟩

theorem pureSends_empty_ignore (s : ServerState) (data : Packet)
    (snap : List Player) :
    pureSends s data [] snap = snap.map (fun q => (q.addr, data)) := by
  unfold pureSends
  rw [show snap.filter (fun q => !optMem (getAddress s q.addr) [])
      = snap.filter (fun _ => true) from
    List.filter_congr (fun q _ => by rw [optMem_nil]; rfl)]
  rw [List.filter_true]

/-- A failure-free `_disconnect` of a registered player removes it from
the three maps, closes its connection, and broadcasts the despawn packet
and then the quit chat message to every remaining registered player. -/
theorem disconnectF_concrete (fuel : Nat) (s : ServerState) (c : Addr)
    (pb : Player) (h : Inv s)
    (hpba : alLookup c s.players_by_address = some pb)
    (hnb : ∀ q ∈ alValues (alErase pb.player_id s.players), q.addr ∉ s.broken) :
    disconnectF (fuel + 1) s c =
      ({ s with closed := c :: s.closed,
                connections := s.connections.erase c,
                players_by_address := alErase c s.players_by_address,
                players := alErase pb.player_id s.players,
                sent := s.sent
                  ++ (alValues (alErase pb.player_id s.players)).map
                      (fun q => (q.addr, Packet.despawn pb.player_id))
                  ++ (alValues (alErase pb.player_id s.players)).map
                      (fun q => (q.addr, Packet.message 0 (quitMessage pb.name))) },
        none) := by
  have hd0 : InvD s none := h
  have hmem : (c, pb) ∈ s.players_by_address := alLookup_mem hpba
  have hconn : c ∈ s.connections := (hd0.2.2.2.2.2 _ hmem).2.1
  have hopen : c ∉ s.closed := hd0.2.2.2.1 _ hconn
  have hpl : alLookup pb.player_id s.players = some pb := by
    rcases (hd0.2.2.2.2.2 _ hmem).2.2 with hcase | hcase
    · exact hcase
    · exact absurd hcase.1 (by simp)
  have hpid : alContains pb.player_id s.players = true :=
    alContains_iff.mpr ⟨pb, hpl⟩
  rw [disconnectF_player_present fuel s c pb hopen hpba hconn hpid]
  rw [broadcastGo_pure (disconnectF fuel) (Packet.despawn pb.player_id) []
    (alValues (purged s c pb.player_id).players) (purged s c pb.player_id) hnb]
  show broadcastGo (disconnectF fuel) (Packet.message 0 (quitMessage pb.name)) []
      _ (alValues (alErase pb.player_id s.players)) = _
  rw [broadcastGo_pure (disconnectF fuel) (Packet.message 0 (quitMessage pb.name)) []
    (alValues (alErase pb.player_id s.players))
    { purged s c pb.player_id with
        sent := (purged s c pb.player_id).sent
          ++ pureSends (purged s c pb.player_id) (Packet.despawn pb.player_id) []
              (alValues (purged s c pb.player_id).players) }
    hnb]
  rw [pureSends_empty_ignore, pureSends_empty_ignore]
  rfl

/-- C7: in a `broadcast(data, ignore)` call over the registered players,
(i) with no broken transports, exactly the players whose session address
is in the ignore set are skipped and every other player's session receives
the data (`pureSends` is one send per non-ignored snapshot member, in
snapshot order); (ii) a send failure for exactly one (non-ignored)
recipient triggers that recipient's disconnect protocol — it is removed
from all three registry maps and its connection is closed — while the call
raises nothing and every remaining registered recipient not in the ignore
set still receives the data. -/
theorem C7_broadcast_failure_isolation (s : ServerState) (data : Packet)
    (ig : List Addr) (h : Inv s) :
    ((∀ q ∈ alValues s.players, q.addr ∉ s.broken) →
      broadcast s data (some ig) =
        ({ s with sent := s.sent ++ pureSends s data ig (alValues s.players) },
          none)) ∧
    (∀ pb ∈ alValues s.players, pb.addr ∈ s.broken → pb.addr ∉ ig →
      (∀ q ∈ alValues s.players, q.addr ∈ s.broken → q = pb) →
      (broadcast s data (some ig)).2 = none ∧
      (∀ q ∈ alValues s.players, q ≠ pb → q.addr ∉ ig →
        (q.addr, data) ∈ (broadcast s data (some ig)).1.sent) ∧
      alLookup pb.player_id (broadcast s data (some ig)).1.players = none ∧
      alLookup pb.addr (broadcast s data (some ig)).1.players_by_address = none ∧
      pb.addr ∉ (broadcast s data (some ig)).1.connections ∧
      pb.addr ∈ (broadcast s data (some ig)).1.closed) := by
  have hd0 : InvD s none := h
  constructor
  · intro hnb
    unfold broadcast
    exact broadcastGo_pure (disconnectF (Mpba s + 1)) data ig
      (alValues s.players) s hnb
  · intro pb hpb hbr hig hone
    obtain ⟨hpba, hpl⟩ := values_synced hd0 hpb
    have hmem : (pb.addr, pb) ∈ s.players_by_address := alLookup_mem hpba
    have hpconn : pb.addr ∈ s.connections := (hd0.2.2.2.2.2 _ hmem).2.1
    have hpopen : pb.addr ∉ s.closed := hd0.2.2.2.1 _ hpconn
    obtain ⟨A, B, hAB⟩ := List.append_of_mem hpb
    have hnd : (A ++ pb :: B).Nodup := by rw [← hAB]; exact values_nodup hd0
    obtain ⟨hndA, hndPB, hdisj⟩ := List.nodup_append.mp hnd
    have hpbA : pb ∉ A := fun hmemA => hdisj hmemA (List.mem_cons_self _ _)
    have hAvals : ∀ q ∈ A, q ∈ alValues s.players := fun q hq => by
      rw [hAB]; exact List.mem_append_left _ hq
    have hBvals : ∀ q ∈ B, q ∈ alValues s.players := fun q hq => by
      rw [hAB]; exact List.mem_append_right _ (List.mem_cons_of_mem _ hq)
    have hAnb : ∀ q ∈ A, q.addr ∉ s.broken := by
      intro q hq hqb
      have hqpb : q = pb := hone q (hAvals q hq) hqb
      rw [hqpb] at hq
      exact hpbA hq
    have hBnb : ∀ q ∈ B, q.addr ∉ s.broken := by
      intro q hq hqb
      have hqpb : q = pb := hone q (hBvals q hq) hqb
      rw [hqpb] at hq
      exact (List.nodup_cons.mp hndPB).1 hq
    have hvals4 : ∀ q ∈ alValues (alErase pb.player_id s.players),
        q.addr ∉ s.broken := by
      intro q hq hqb
      rcases mem_alValues_iff.mp hq with ⟨k, hk⟩
      have hkne : k ≠ pb.player_id :=
        (mem_keys_alErase (List.mem_map_of_mem Prod.fst hk)).2
      have hkq : (k, q) ∈ s.players := mem_alErase hk
      have hqid : q.player_id = k := (hd0.2.2.2.2.1 _ hkq).1
      have hqv : q ∈ alValues s.players := mem_alValues_iff.mpr ⟨k, hkq⟩
      have hqpb : q = pb := hone q hqv hqb
      rw [hqpb] at hqid
      exact hkne (by rw [← hqid])
    have hskipA : optMem (getAddress s pb.addr) ig = false := by
      unfold getAddress
      rw [if_neg hpopen]
      exact contains_eq_false_of_not_mem hig
    have hkey : broadcast s data (some ig) =
        ({ s with closed := pb.addr :: s.closed,
                  connections := s.connections.erase pb.addr,
                  players_by_address := alErase pb.addr s.players_by_address,
                  players := alErase pb.player_id s.players,
                  sent := s.sent ++ pureSends s data ig A
                    ++ (alValues (alErase pb.player_id s.players)).map
                        (fun q => (q.addr, Packet.despawn pb.player_id))
                    ++ (alValues (alErase pb.player_id s.players)).map
                        (fun q => (q.addr, Packet.message 0 (quitMessage pb.name)))
                    ++ pureSends { s with closed := pb.addr :: s.closed }
                        data ig B },
          none) := by
      show broadcastGo (disconnectF (Mpba s + 1)) data ig s (alValues s.players) = _
      rw [hAB]
      rw [broadcastGo_append (disconnectF (Mpba s + 1)) data ig A (pb :: B) s]
      rw [broadcastGo_pure (disconnectF (Mpba s + 1)) data ig A s hAnb]
      show broadcastGo (disconnectF (Mpba s + 1)) data ig
          { s with sent := s.sent ++ pureSends s data ig A } (pb :: B) = _
      rw [broadcastGo_cons_fail (disconnectF (Mpba s + 1)) data ig
        { s with sent := s.sent ++ pureSends s data ig A } pb B hskipA hbr]
      rw [disconnectF_concrete (Mpba s)
        { s with sent := s.sent ++ pureSends s data ig A } pb.addr pb h hpba hvals4]
      show broadcastGo (disconnectF (Mpba s + 1)) data ig
          { s with closed := pb.addr :: s.closed,
                   connections := s.connections.erase pb.addr,
                   players_by_address := alErase pb.addr s.players_by_address,
                   players := alErase pb.player_id s.players,
                   sent := s.sent ++ pureSends s data ig A
                     ++ (alValues (alErase pb.player_id s.players)).map
                         (fun q => (q.addr, Packet.despawn pb.player_id))
                     ++ (alValues (alErase pb.player_id s.players)).map
                         (fun q => (q.addr, Packet.message 0 (quitMessage pb.name))) }
          B = _
      rw [broadcastGo_pure (disconnectF (Mpba s + 1)) data ig B
          { s with closed := pb.addr :: s.closed,
                   connections := s.connections.erase pb.addr,
                   players_by_address := alErase pb.addr s.players_by_address,
                   players := alErase pb.player_id s.players,
                   sent := s.sent ++ pureSends s data ig A
                     ++ (alValues (alErase pb.player_id s.players)).map
                         (fun q => (q.addr, Packet.despawn pb.player_id))
                     ++ (alValues (alErase pb.player_id s.players)).map
                         (fun q => (q.addr, Packet.message 0 (quitMessage pb.name))) }
          hBnb]
      rfl
    rw [hkey]
    refine ⟨rfl, ?_, ?_, ?_, ?_, ?_⟩
    · intro q hq hqpb hqig
      have hqopen : q.addr ∉ s.closed := by
        obtain ⟨hql, _⟩ := values_synced hd0 hq
        exact hd0.2.2.2.1 _ ((hd0.2.2.2.2.2 _ (alLookup_mem hql)).2.1)
      have hq2 : q ∈ A ∨ q ∈ B := by
        rw [hAB] at hq
        rcases List.mem_append.mp hq with hq | hq
        · exact Or.inl hq
        · rcases List.mem_cons.mp hq with hq | hq
          · exact absurd hq hqpb
          · exact Or.inr hq
      show (q.addr, data) ∈
        s.sent ++ pureSends s data ig A
          ++ (alValues (alErase pb.player_id s.players)).map
              (fun q => (q.addr, Packet.despawn pb.player_id))
          ++ (alValues (alErase pb.player_id s.players)).map
              (fun q => (q.addr, Packet.message 0 (quitMessage pb.name)))
          ++ pureSends { s with closed := pb.addr :: s.closed } data ig B
      rcases hq2 with hq2 | hq2
      · have hmemA : (q.addr, data) ∈ pureSends s data ig A := by
          refine mem_pureSends hq2 ?_
          unfold getAddress
          rw [if_neg hqopen]
          exact contains_eq_false_of_not_mem hqig
        exact List.mem_append_left _ (List.mem_append_left _
          (List.mem_append_left _ (List.mem_append_right _ hmemA)))
      · have hmemB : (q.addr, data) ∈
            pureSends { s with closed := pb.addr :: s.closed } data ig B := by
          refine mem_pureSends hq2 ?_
          have hqne : q.addr ≠ pb.addr := by
            intro hh
            exact hqpb (values_addr_inj hd0 hq hpb hh)
          unfold getAddress
          rw [if_neg (by
            intro hmem2
            rcases List.mem_cons.mp hmem2 with hmem2 | hmem2
            · exact hqne hmem2
            · exact hqopen hmem2)]
          exact contains_eq_false_of_not_mem hqig
        exact List.mem_append_right _ hmemB
    · exact alLookup_alErase_self pb.player_id s.players
    · exact alLookup_alErase_self pb.addr s.players_by_address
    · show pb.addr ∉ s.connections.erase pb.addr
      intro hmem2
      have := (hd0.2.2.1.mem_erase_iff).mp hmem2
      exact this.1 rfl
    · exact List.mem_cons_self _ _

/-- Alice (id 0, address 7), Bob (id 1, address 8, broken transport),
Carol (id 2, address 9). -/
def threeState : ServerState :=
  { connections := [7, 8, 9],
    players := [(0, ⟨0, 7, [], "Alice", 0⟩), (1, ⟨1, 8, [], "Bob", 0⟩),
                (2, ⟨2, 9, [], "Carol", 0⟩)],
    players_by_address := [(7, ⟨0, 7, [], "Alice", 0⟩), (8, ⟨1, 8, [], "Bob", 0⟩),
                           (9, ⟨2, 9, [], "Carol", 0⟩)],
    player_id := 3, max_players := 10, op_players := [], closed := [],
    broken := [8], sent := [] }

theorem C7_witness :
    (broadcast threeState Packet.ping (some [9])).2 = none ∧
      ((7 : Addr), Packet.ping) ∈ (broadcast threeState Packet.ping (some [9])).1.sent ∧
      alLookup 1 (broadcast threeState Packet.ping (some [9])).1.players = none ∧
      alLookup 8 (broadcast threeState Packet.ping (some [9])).1.players_by_address
        = none ∧
      (8 : Addr) ∉ (broadcast threeState Packet.ping (some [9])).1.connections ∧
      (8 : Addr) ∈ (broadcast threeState Packet.ping (some [9])).1.closed := by
  have h := (C7_broadcast_failure_isolation threeState Packet.ping [9]
      (by decide)).2 ⟨1, 8, [], "Bob", 0⟩ (by decide) (by decide) (by decide)
      (by decide)
  exact ⟨h.1, h.2.1 ⟨0, 7, [], "Alice", 0⟩ (by decide) (by decide) (by decide),
         h.2.2.1, h.2.2.2.1, h.2.2.2.2.1, h.2.2.2.2.2⟩

end ClassicServer
